import Mathlib

/-!
Verification development for the document-structure extraction engine
(`main.py`): block normalization and section tracking, noise classification,
boilerplate detection and chunk assembly.

The Python code is shallowly embedded: Python values are modelled by the
inductive `PyVal` (floats as rationals), dictionaries by association lists,
exceptions by `Except Unit`.  Character-level modelling notes:

* Unicode NFC normalization is modelled as the identity (NFC is idempotent
  and the inputs of interest are already composed).
* `str.lower` / `re.IGNORECASE` are modelled by an ASCII lowering extended
  with the uppercase Turkish letters appearing in the source's alphabets.
* the regex classes `\d`, `\s`, `\w` are modelled over ASCII digits, ASCII
  whitespace, and ASCII word characters extended with the Turkish letters
  of the source's patterns.
-/

/-- Python runtime values, as far as the engine inspects them.  Python
floats are modelled exactly as rationals. -/
inductive PyVal where
  | none
  | bool (b : Bool)
  | int (n : Int)
  | float (q : Rat)
  | str (s : String)
  | list (xs : List PyVal)
  | tuple (xs : List PyVal)
  | dict (kvs : List (String × PyVal))

/-- A Python dict with string keys (an element record), as an association
list in insertion order. -/
abbrev Elem : Type := List (String × PyVal)

/-- Python truthiness of a value. -/
def pyTruthy : PyVal → Bool
  | .none => false
  | .bool b => b
  | .int n => n != 0
  | .float q => q != 0
  | .str s => s != ""
  | .list xs => !xs.isEmpty
  | .tuple xs => !xs.isEmpty
  | .dict kvs => !kvs.isEmpty

/-- Python `a or b`: `a` if truthy, else `b`. -/
def pyOr (a b : PyVal) : PyVal := if pyTruthy a then a else b

/-- Dictionary lookup with an explicit default (`d.get(k, default)`). -/
def pyGetD (el : List (String × PyVal)) (k : String) (dflt : PyVal) : PyVal :=
  match el.find? (fun kv => kv.1 == k) with
  | some kv => kv.2
  | Option.none => dflt

/-- Dictionary lookup, `None` when the key is absent (`d.get(k)`). -/
def pyGet (el : List (String × PyVal)) (k : String) : PyVal :=
  pyGetD el k PyVal.none

/-- Lookup in an association list with a default value. -/
def lookupD {α : Type} [BEq α] (m : List (α × Nat)) (k : α) (dflt : Nat) : Nat :=
  match m.find? (fun kv => kv.1 == k) with
  | some kv => kv.2
  | Option.none => dflt

/-- Store a key/value pair in an association list (replace or append),
modelling Python dict assignment. -/
def setAssoc {α : Type} [BEq α] (m : List (α × Nat)) (k : α) (v : Nat) : List (α × Nat) :=
  match m with
  | [] => [(k, v)]
  | kv :: rest => if kv.1 == k then (k, v) :: rest else kv :: setAssoc rest k v

/-- ASCII whitespace test, modelling Python whitespace. -/
def pyIsWs (c : Char) : Bool := c.isWhitespace

/-- Characters of a string with leading whitespace removed. -/
def pyStripChars (cs : List Char) : List Char :=
  ((cs.dropWhile pyIsWs).reverse.dropWhile pyIsWs).reverse

/-- Python `str.strip()` (ASCII-whitespace model). -/
def pyStrip (s : String) : String := String.mk (pyStripChars s.data)

/-- The combining dot above (U+0307), the second character of
`"İ".lower()` in Python. -/
def combDot : Char := Char.ofNat 775

/-- Lowercase one character as Python `str.lower()` does: ASCII lowering
extended with the uppercase Turkish letters of the source alphabets; İ
lowers to the two-character sequence i + combining dot above, exactly as
in Python. -/
def pyLowerChar (c : Char) : List Char :=
  if c == 'İ' then ['i', combDot]
  else if c == 'Ş' then ['ş']
  else if c == 'Ğ' then ['ğ']
  else if c == 'Ü' then ['ü']
  else if c == 'Ö' then ['ö']
  else if c == 'Ç' then ['ç']
  else [c.toLower]

/-- Python `str.lower()` under the model of `pyLowerChar`. -/
def pyLower (s : String) : String := String.mk (s.data.flatMap pyLowerChar)

/-- Canonicalize one already-lowered character for `re.IGNORECASE`
matching: Python's regex folding makes i, I, ı and İ all match each
other, so the dotless ı is canonicalized to i. -/
def reFoldChar (c : Char) : Char := if c == 'ı' then 'i' else c

/-- Canonicalize an already-lowered character list for `re.IGNORECASE`
matching: ı becomes i, and the sequence i + combining dot (the lowering
of İ) collapses back to the single i it matches as; a combining dot
already present in the raw text is conflated with the lowered İ
(declared model approximation). -/
def reFoldChars : List Char → List Char
  | [] => []
  | [c] => [reFoldChar c]
  | c :: d :: cs =>
      if c == 'i' && d == combDot then 'i' :: reFoldChars cs
      else reFoldChar c :: reFoldChars (d :: cs)

/-- Substring containment on character lists (Python `sub in hay`). -/
def containsL (hay pat : List Char) : Bool :=
  hay.tails.any (fun s => pat.isPrefixOf s)

/-- Substring containment on strings (Python `sub in hay`). -/
def containsStr (hay pat : String) : Bool := containsL hay.data pat.data

/-- ASCII digit-string test modelling Python `str.isdigit`: nonempty and
all digits. -/
def pyIsDigits (t : String) : Bool := !t.data.isEmpty && t.data.all Char.isDigit

/-- Parse an optionally signed decimal integer literal, modelling Python
`int(str)` on its common inputs (whitespace-stripped; digit-group
underscores are not modelled). -/
def parseIntChars (cs : List Char) : Option Int :=
  match pyStripChars cs with
  | '-' :: rest => if !rest.isEmpty && rest.all Char.isDigit then
      some (-(Int.ofNat (rest.foldl (fun a c => a * 10 + c.toNat - 48) 0))) else Option.none
  | '+' :: rest => if !rest.isEmpty && rest.all Char.isDigit then
      some (Int.ofNat (rest.foldl (fun a c => a * 10 + c.toNat - 48) 0)) else Option.none
  | rest => if !rest.isEmpty && rest.all Char.isDigit then
      some (Int.ofNat (rest.foldl (fun a c => a * 10 + c.toNat - 48) 0)) else Option.none

/-- Validate the tail of a Python digit-part: digits with single
underscores allowed only between digits. -/
def underscoreDigits : List Char → Bool
  | [] => true
  | ['_'] => false
  | '_' :: c :: cs => c.isDigit && underscoreDigits cs
  | c :: cs => c.isDigit && underscoreDigits cs

/-- A Python float-literal digit-part: nonempty digits, with single
underscores only between digits. -/
def isDigitPart (l : List Char) : Bool :=
  match l with
  | [] => false
  | c :: cs => c.isDigit && underscoreDigits cs

/-- Base-10 value of a digit-part, underscores skipped. -/
def digitsVal (l : List Char) : Nat :=
  (l.filter (fun c => c != '_')).foldl (fun a c => a * 10 + (c.toNat - 48)) 0

/-- Number of digits of a digit-part, underscores skipped. -/
def digitsCount (l : List Char) : Nat := (l.filter (fun c => c != '_')).length

/-- The sign-stripped, lowercased body of a Python float literal:
`inf`/`infinity`/`nan`, or `[digitpart] [. [digitpart]] [e [sign] digitpart]`
with at least one digit before the exponent.  Infinities and nan have no
rational value; the model returns 0 for them — only their non-raising is
observable to the embedded control flow (they reach only the bbox output). -/
def parseFloatBody (l : List Char) : Option Rat :=
  if l == "inf".data || l == "infinity".data || l == "nan".data then some 0
  else
    let mant := l.takeWhile (fun c => c != 'e')
    let erest := l.dropWhile (fun c => c != 'e')
    let ip := mant.takeWhile (fun c => c != '.')
    let mrest := mant.dropWhile (fun c => c != '.')
    let fp := match mrest with
      | [] => ([] : List Char)
      | _ :: fs => fs
    let mantOk := (ip.isEmpty || isDigitPart ip) && (fp.isEmpty || isDigitPart fp) &&
      (!ip.isEmpty || !fp.isEmpty)
    let mantVal : Rat :=
      (digitsVal ip : Rat) + (digitsVal fp : Rat) / ((10 : Rat) ^ digitsCount fp)
    match erest with
    | [] => if mantOk then some mantVal else Option.none
    | _ :: es =>
        let eneg := match es with
          | '-' :: _ => true
          | _ => false
        let edig := match es with
          | '+' :: ds => ds
          | '-' :: ds => ds
          | ds => ds
        if mantOk && isDigitPart edig then
          some (if eneg then mantVal / (10 : Rat) ^ digitsVal edig
                else mantVal * (10 : Rat) ^ digitsVal edig)
        else Option.none

/-- Parse a Python float literal as a rational, modelling `float(str)`:
optional whitespace and sign, then the case-insensitive body (ASCII
model; Unicode digits are not modelled). -/
def parseFloatChars (cs : List Char) : Option Rat :=
  match (pyStripChars cs).map Char.toLower with
  | '-' :: rest => (parseFloatBody rest).map (fun q => -q)
  | '+' :: rest => parseFloatBody rest
  | rest => parseFloatBody rest

/-- Python `float(v)`: succeeds on numbers and numeric strings, raises
(`Option.none`) otherwise. -/
def pyFloat : PyVal → Option Rat
  | .int n => some (n : Rat)
  | .float q => some q
  | .bool b => some (if b then 1 else 0)
  | .str s => parseFloatChars s.data
  | _ => Option.none

/-- Python `int(v)` for non-string values (string case via `parseIntChars`);
floats truncate toward zero; fails (`Option.none`) on None/containers. -/
def pyInt : PyVal → Option Int
  | .int n => some n
  | .bool b => some (if b then 1 else 0)
  | .float q => some (Int.tdiv q.num (Int.ofNat q.den))
  | .str s => parseIntChars s.data
  | _ => Option.none

/-- A single-quote string, used by the repr model. -/
def quoteMark : String := String.singleton (Char.ofNat 39)

/-- Decimal rendering of a rational, modelling Python `str(float)` only as
far as totality requires. -/
def ratStr (q : Rat) : String :=
  if q.den = 1 then toString q.num ++ ".0" else toString q.num ++ "/" ++ toString q.den

mutual
/-- Python `repr(v)` (model: quoting without escaping; only totality and
the numeric/string cases matter to the engine). -/
def pyRepr : PyVal → String
  | .none => "None"
  | .bool b => if b then "True" else "False"
  | .int n => toString n
  | .float q => ratStr q
  | .str s => quoteMark ++ s ++ quoteMark
  | .list xs => "[" ++ String.intercalate ", " (pyReprList xs) ++ "]"
  | .tuple xs =>
      if xs.length == 1 then "(" ++ String.intercalate ", " (pyReprList xs) ++ ",)"
      else "(" ++ String.intercalate ", " (pyReprList xs) ++ ")"
  | .dict kvs => "\x7b" ++ String.intercalate ", " (pyReprKvs kvs) ++ "\x7d"
termination_by v => sizeOf v

/-- repr of each element of a list of values. -/
def pyReprList : List PyVal → List String
  | [] => []
  | x :: xs => pyRepr x :: pyReprList xs
termination_by xs => sizeOf xs

/-- repr of each key/value pair of a dict. -/
def pyReprKvs : List (String × PyVal) → List String
  | [] => []
  | (k, v) :: kvs => (quoteMark ++ k ++ quoteMark ++ ": " ++ pyRepr v) :: pyReprKvs kvs
termination_by kvs => sizeOf kvs
end

/-- Python `str(v)`. -/
def pyStr : PyVal → String
  | .str s => s
  | v => pyRepr v

/-- Category-to-type table of the source (`CATEGORY_TO_TYPE`), then
`_block_type`: exact match, unknown labels map to `"other"`. -/
def _block_type (category : String) : String :=
  if category == "Title" then "title"
  else if category == "NarrativeText" then "paragraph"
  else if category == "ListItem" then "list_item"
  else if category == "Table" then "table"
  else if category == "Header" then "header"
  else if category == "Footer" then "footer"
  else "other"

/-- The transliteration table of `_slug` (`str.maketrans` over the Turkish
letters and the space). -/
def trChar (c : Char) : Char :=
  if c == 'ı' then 'i'
  else if c == 'İ' then 'I'
  else if c == 'ğ' then 'g'
  else if c == 'Ğ' then 'G'
  else if c == 'ü' then 'u'
  else if c == 'Ü' then 'U'
  else if c == 'ş' then 's'
  else if c == 'Ş' then 'S'
  else if c == 'ö' then 'o'
  else if c == 'Ö' then 'O'
  else if c == 'ç' then 'c'
  else if c == 'Ç' then 'C'
  else if c == ' ' then '_'
  else c

/-- Slug alphabet `[a-z0-9_]`. -/
def slugOk (c : Char) : Bool :=
  ('a' ≤ c && c ≤ 'z') || ('0' ≤ c && c ≤ '9') || c == '_'

/-- Collapse every run of underscores to a single underscore
(`re.sub("_+", "_", s)`; the preceding `re.sub("[^a-z0-9_]+", "_", s)` is
modelled as a character-wise replacement, which yields the same string
after this collapse). -/
def squeezeUnd : List Char → List Char
  | [] => []
  | c :: cs =>
      match squeezeUnd cs with
      | [] => [c]
      | d :: ds => if c == '_' && d == '_' then d :: ds else c :: d :: ds

/-- Strip leading and trailing underscores (`str.strip("_")`). -/
def stripUnd (cs : List Char) : List Char :=
  ((cs.dropWhile (fun c => c == '_')).reverse.dropWhile (fun c => c == '_')).reverse

/-- Section slugifier `_slug` of the source, on the already-coerced string
argument (the non-string guard of the source cannot fire there):
strip, transliterate, lower, replace non-`[a-z0-9_]` runs by `_`, collapse
`_` runs, strip `_`, falling back to the sentinel. -/
def _slug (text : String) : String :=
  if text == "" then "basliksiz"
  else
    let s1 := ((pyStripChars text.data).map trChar).flatMap pyLowerChar
    let s2 := squeezeUnd (s1.map (fun c => if slugOk c then c else '_'))
    let s3 := String.mk (stripUnd s2)
    if s3 == "" then "basliksiz" else s3

/-- Python `str.split()` (no separator), accumulator form: whitespace-run
splitting into nonempty tokens; `acc` holds the current token reversed. -/
def splitWsAux : List Char → List Char → List (List Char)
  | [], acc => if acc.isEmpty then [] else [acc.reverse]
  | c :: cs, acc =>
      if pyIsWs c then
        if acc.isEmpty then splitWsAux cs [] else acc.reverse :: splitWsAux cs []
      else splitWsAux cs (c :: acc)

/-- Python `str.split()` (no separator). -/
def splitWs (cs : List Char) : List (List Char) := splitWsAux cs []

/-- Python `" ".join(tokens)` on character lists. -/
def joinSp : List (List Char) → List Char
  | [] => []
  | [t] => t
  | t :: ts => t ++ ' ' :: joinSp ts

/-- Body of `_normalize_text` on a string: NFC (modelled as identity),
whitespace collapse via `" ".join(s.split())`, final strip. -/
def pyNormalize (s : String) : String :=
  String.mk (pyStripChars (joinSp (splitWs s.data)))

/-- Text normalizer `_normalize_text` of the source on a Python value:
empty string for falsy or non-string input, else the normalized body. -/
def _normalize_text : PyVal → String
  | .str s => if s == "" then "" else pyNormalize s
  | _ => ""

/-- Hierarchy level table `_hierarchy_level`. -/
def _hierarchy_level (block_type : String) : Nat :=
  if block_type == "title" then 1
  else if block_type == "list_item" then 2
  else if block_type == "header" || block_type == "footer" then 4
  else 3

/-- Word character for the regex `\b` model: ASCII alphanumerics,
underscore, and the Turkish letters of the source's alphabets. -/
def isWordChar (c : Char) : Bool :=
  c.isAlphanum || c == '_' ||
  c == 'ç' || c == 'ğ' || c == 'ı' || c == 'ö' || c == 'ş' || c == 'ü' ||
  c == 'Ç' || c == 'Ğ' || c == 'İ' || c == 'Ö' || c == 'Ş' || c == 'Ü'

/-- Boundary test at the start of a remaining suffix: end of input or a
non-word character. -/
def boundaryAt : List Char → Bool
  | [] => true
  | c :: _ => !isWordChar c

/-- Exactly `n` ASCII digits at the head of `l`: the remaining suffix, or
failure. -/
def matchDigits (n : Nat) (l : List Char) : Option (List Char) :=
  if (l.take n).length == n && (l.take n).all Char.isDigit then some (l.drop n)
  else Option.none

/-- Month-name alternatives of `_DATE_PATTERN` (lowercase; matching is done
on the lowered text). -/
def monthNames : List (List Char) :=
  ["ocak", "şubat", "mart", "nisan", "mayıs", "haziran", "temmuz", "ağustos",
   "eylül", "ekim", "kasım", "aralık",
   "january", "february", "march", "april", "may", "june", "july", "august",
   "september", "october", "november", "december"].map String.data

/-- The month alternatives canonicalized for `re.IGNORECASE` matching
(matched against the folded text). -/
def monthNamesF : List (List Char) := monthNames.map reFoldChars

/-- First `_DATE_PATTERN` alternative `\d{1,2}[./]\d{1,2}[./]\d{2,4}` with
the trailing `\b`, tried at the head of `l` over all quantifier choices. -/
def dateAltA (l : List Char) : Bool :=
  [1, 2].any fun n1 =>
    match matchDigits n1 l with
    | Option.none => false
    | some r1 =>
        match r1 with
        | [] => false
        | s1 :: r2 =>
            (s1 == '.' || s1 == '/') &&
            ([1, 2].any fun n2 =>
              match matchDigits n2 r2 with
              | Option.none => false
              | some r3 =>
                  match r3 with
                  | [] => false
                  | s2 :: r4 =>
                      (s2 == '.' || s2 == '/') &&
                      ([2, 3, 4].any fun n3 =>
                        match matchDigits n3 r4 with
                        | Option.none => false
                        | some r5 => boundaryAt r5))

/-- Second `_DATE_PATTERN` alternative `\d` times 4, a dash-or-slash class,
`\d` 1-2 times, the class again, `\d` 1-2 times, with the trailing `\b`,
tried at the head of `l`. -/
def dateAltB (l : List Char) : Bool :=
  match matchDigits 4 l with
  | Option.none => false
  | some r1 =>
      match r1 with
      | [] => false
      | s1 :: r2 =>
          (s1 == '-' || s1 == '/') &&
          ([1, 2].any fun n2 =>
            match matchDigits n2 r2 with
            | Option.none => false
            | some r3 =>
                match r3 with
                | [] => false
                | s2 :: r4 =>
                    (s2 == '-' || s2 == '/') &&
                    ([1, 2].any fun n3 =>
                      match matchDigits n3 r4 with
                      | Option.none => false
                      | some r5 => boundaryAt r5))

/-- Third `_DATE_PATTERN` alternative `\d{1,2}\s+<month>\s+\d{2,4}` with the
trailing `\b`, tried at the head of `l` (a `\s+` before a letter must
consume the whole whitespace run). -/
def dateAltC (l : List Char) : Bool :=
  [1, 2].any fun n1 =>
    match matchDigits n1 l with
    | Option.none => false
    | some r1 =>
        let ws1 := r1.takeWhile pyIsWs
        let r2 := r1.dropWhile pyIsWs
        !ws1.isEmpty &&
        (monthNamesF.any fun m =>
          m.isPrefixOf r2 &&
          (let r3 := r2.drop m.length
           let ws2 := r3.takeWhile pyIsWs
           let r4 := r3.dropWhile pyIsWs
           !ws2.isEmpty &&
           ([2, 3, 4].any fun n3 =>
             match matchDigits n3 r4 with
             | Option.none => false
             | some r5 => boundaryAt r5)))

/-- Scan for `_DATE_PATTERN` (leading `\b` tracked through the flag:
every alternative starts with a digit, so the position must follow a
non-word character or the start). -/
def dateSearchAux (bnd : Bool) : List Char → Bool
  | [] => false
  | c :: rest =>
      (bnd && (dateAltA (c :: rest) || dateAltB (c :: rest) || dateAltC (c :: rest))) ||
      dateSearchAux (!isWordChar c) rest

/-- `_DATE_PATTERN.search` on the text, modelling `re.IGNORECASE` by
lowering and then canonicalizing the i-family (Python folds i, I, ı and İ
together). -/
def dateSearch (t : String) : Bool :=
  dateSearchAux true (reFoldChars (pyLower t).data)

/-- Length of the leading whitespace run. -/
def wsRunLen (l : List Char) : Nat := (l.takeWhile pyIsWs).length

/-- The `©\s*\d{4}` alternative of `_COPYRIGHT_PATTERN` (subsumed by the
bare `©` alternative, embedded for completeness). -/
def copAlt5 (l : List Char) : Bool :=
  l.tails.any fun s =>
    match s with
    | c :: r =>
        c == '©' &&
        ((List.range (wsRunLen r + 1)).any fun j =>
          match matchDigits 4 (r.drop j) with
          | Option.none => false
          | some _ => true)
    | [] => false

/-- `_COPYRIGHT_PATTERN.search` on the lowered text, with the i-family
canonicalization of `re.IGNORECASE` applied to both the text and the
pattern literals. -/
def copyrightSearch (lower : String) : Bool :=
  containsL (reFoldChars lower.data) (reFoldChars "©".data) ||
  containsL (reFoldChars lower.data) (reFoldChars "copyright".data) ||
  containsL (reFoldChars lower.data) (reFoldChars "tüm hakları".data) ||
  containsL (reFoldChars lower.data) (reFoldChars "all rights reserved".data) ||
  copAlt5 (reFoldChars lower.data) ||
  containsL (reFoldChars lower.data) (reFoldChars "her hakkı".data)

/-- Suffix match of a literal followed by a `\b` boundary. -/
def suffixMatchWb (pat : List Char) (s : List Char) : Bool :=
  pat.isPrefixOf s && boundaryAt (s.drop pat.length)

/-- `_URL_PATTERN.search` (`https?://|www\.|\.com\b|\.org\b|\.net\b`) on
the lowered text. -/
def urlSearch (lower : String) : Bool :=
  containsStr lower "http://" || containsStr lower "https://" ||
  containsStr lower "www." ||
  lower.data.tails.any (fun s => suffixMatchWb ".com".data s) ||
  lower.data.tails.any (fun s => suffixMatchWb ".org".data s) ||
  lower.data.tails.any (fun s => suffixMatchWb ".net".data s)

/-- Count of separator characters of the URL rule: the source counts the
characters of the string `" .,;"`, i.e. space, dot, comma and semicolon. -/
def sepCount (t : String) : Nat :=
  (t.data.filter (fun c => c == ' ' || c == '.' || c == ',' || c == ';')).length

/-- Separator count as the specification words it: space, comma and
semicolon only (no dot).  Kept separate from `sepCount` to compare the
spec sentence with the code. -/
def specSepCount (t : String) : Nat :=
  (t.data.filter (fun c => c == ' ' || c == ',' || c == ';')).length

/-- Tail of `_TOC_LINE_PATTERN` after the `[.)]` terminator:
`\s*.{1,100}$` with `.` not matching a newline and `$` also matching just
before one final newline. -/
def tocTail (r : List Char) : Bool :=
  (List.range (wsRunLen r + 1)).any fun j =>
    let r1 := r.drop j
    let core := if r1.getLast? == some '\n' then r1.dropLast else r1
    decide (1 ≤ core.length) && decide (core.length ≤ 100) &&
      core.all (fun c => c != '\n')

/-- `_TOC_LINE_PATTERN.match` (`^\s*\d+[.)]\s*.{1,100}$`), anchored at the
start: the `\s*` and `\d+` before the `[.)]` terminator are forced to the
maximal runs because a digit is not whitespace and the terminator is not a
digit. -/
def tocLineMatch (t : String) : Bool :=
  let l1 := t.data.dropWhile pyIsWs
  let ds := l1.takeWhile Char.isDigit
  let r := l1.dropWhile Char.isDigit
  !ds.isEmpty &&
  (match r with
   | c :: rest => (c == '.' || c == ')') && tocTail rest
   | [] => false)

/-- Table-of-contents marker phrases `_ICINDEKILER_MARKERS`. -/
def icindekilerMarkers : List String :=
  ["içindekiler", "contents", "table of contents", "index"]

/-- UI-instruction marker phrases `_UI_INSTRUCTION_MARKERS`. -/
def uiMarkers : List String :=
  ["tıklayın", "tıklanır", "tıklanacak", "butona", "butonuna", "menüden",
   "seçin", "girin", "ekran açılır", "açılır", "penceresi açılır",
   "görüntülenir", "görünür", "sayfa açılır",
   "click", "select", "choose", "enter", "opens", "displayed", "shown"]

/-- Rule 8 of the cascade: the governing section's title, stripped and
lowered, is a table-of-contents marker (guarded by the truthiness of the
unstripped title). -/
def tocSection (section_title : String) : Bool :=
  section_title != "" && icindekilerMarkers.contains (pyLower (pyStrip section_title))

/-- Noise classifier `_is_noise`: the source's early-return cascade, written
as the equivalent disjunction of its rules in order. -/
def _is_noise (block_type text section_title : String) : Bool :=
  let t := pyStrip text
  let lower := pyLower t
  (block_type == "footer" || block_type == "header") ||
  (t == "") ||
  (decide (t.length ≤ 2) && (t == "." || t == ".." || t == "-" || t == "–" || t == "—")) ||
  pyIsDigits t ||
  (dateSearch t && decide (t.length < 80)) ||
  copyrightSearch lower ||
  (urlSearch lower && decide (sepCount t < 3)) ||
  tocSection section_title ||
  (containsStr lower "içindekiler" && decide (t.length < 150)) ||
  (tocLineMatch t && decide (t.length < 120)) ||
  (decide (t.length < 120) && uiMarkers.any (fun m => containsStr lower m))

/-- Test for the Python `is None` check. -/
def isNoneV : PyVal → Bool
  | PyVal.none => true
  | _ => false

/-- The resolved bbox value of an element:
`el.get("bbox") or el.get("coordinates") or el.get("bounding_box")`. -/
def bboxResolve (el : Elem) : PyVal :=
  pyOr (pyGet el "bbox") (pyOr (pyGet el "coordinates") (pyGet el "bounding_box"))

/-- The resolved value of one bbox corner in the dict form, e.g.
`bbox.get("x1") or bbox.get("left")`. -/
def cornerRes (kvs : List (String × PyVal)) (k1 k2 : String) : PyVal :=
  pyOr (pyGet kvs k1) (pyGet kvs k2)

/-- `_bbox_from_element`: extract `[x1, y1, x2, y2]` if available, else
`None`; a failing `float(...)` conversion raises (`Except.error`). -/
def _bbox_from_element (el : Elem) : Except Unit (Option (List Rat)) :=
  match bboxResolve el with
  | PyVal.none => Except.ok Option.none
  | bbox =>
    match bbox with
    | PyVal.list xs =>
        if h4 : 4 ≤ xs.length then
          match pyFloat (xs.get ⟨0, by omega⟩), pyFloat (xs.get ⟨1, by omega⟩),
                pyFloat (xs.get ⟨2, by omega⟩), pyFloat (xs.get ⟨3, by omega⟩) with
          | some a, some b, some c, some d => Except.ok (some [a, b, c, d])
          | _, _, _, _ => Except.error ()
        else Except.ok Option.none
    | PyVal.tuple xs =>
        if h4 : 4 ≤ xs.length then
          match pyFloat (xs.get ⟨0, by omega⟩), pyFloat (xs.get ⟨1, by omega⟩),
                pyFloat (xs.get ⟨2, by omega⟩), pyFloat (xs.get ⟨3, by omega⟩) with
          | some a, some b, some c, some d => Except.ok (some [a, b, c, d])
          | _, _, _, _ => Except.error ()
        else Except.ok Option.none
    | PyVal.dict kvs =>
        let x1 := cornerRes kvs "x1" "left"
        let y1 := cornerRes kvs "y1" "top"
        let x2 := cornerRes kvs "x2" "right"
        let y2 := cornerRes kvs "y2" "bottom"
        if isNoneV x1 || isNoneV y1 || isNoneV x2 || isNoneV y2 then Except.ok Option.none
        else
          match pyFloat x1, pyFloat y1, pyFloat x2, pyFloat y2 with
          | some a, some b, some c, some d => Except.ok (some [a, b, c, d])
          | _, _, _, _ => Except.error ()
    | _ => Except.ok Option.none

/-- Annotated block produced by the Structure Builder (the dict appended by
`extract_structure`). -/
structure Block where
  block_id : String
  type : String
  text : String
  page : Int
  bbox : Option (List Rat)
  section_id : String
  section_title : String
  hierarchy_level : Nat
  chunk_id : String
  block_index_in_page : Nat
  is_noise : Bool
  normalized_text : String
deriving DecidableEq

/-- Python string `or` (`a or b` on strings). -/
def pyOrStr (a b : String) : String := if a == "" then b else a

/-- The coerced category of an element:
`el.get("category") or el.get("type") or ""`, stripped when a string. -/
def categoryOf (el : Elem) : PyVal :=
  pyOr (pyGet el "category") (pyOr (pyGet el "type") (PyVal.str ""))

/-- The schema type of an element (`_block_type` applied to the stripped
category; a non-string category is never in the table). -/
def elemType (el : Elem) : String :=
  match categoryOf el with
  | PyVal.str s => _block_type (pyStrip s)
  | _ => "other"

/-- The coerced text of an element: `el.get("text", "")`, `None` replaced
by `""`, non-strings passed through `str(...)`. -/
def coerceText (el : Elem) : String :=
  match pyGetD el "text" (PyVal.str "") with
  | PyVal.none => ""
  | PyVal.str s => s
  | v => pyStr v

/-- The coerced page of an element: `el.get("page_number") or
el.get("page")`, `None` replaced by `0`, then `int(...)` with
`TypeError`/`ValueError` degrading to `0`. -/
def coercePage (el : Elem) : Int :=
  match pyOr (pyGet el "page_number") (pyGet el "page") with
  | PyVal.none => 0
  | v => (pyInt v).getD 0

/-- Zero-padded 3-digit index (`format spec 03d` for a positive count). -/
def pad3 (n : Nat) : String :=
  let s := toString n
  if s.length < 3 then String.mk (List.replicate (3 - s.length) '0') ++ s else s

/-- Mutable cursor state of the Structure Builder: current section id and
title, the per-page counter and the per-section counter. -/
structure BState where
  curSid : String
  curTitle : String
  pageCounter : List (Int × Nat)
  secIdx : List (String × Nat)

/-- Initial cursor state of `extract_structure`. -/
def initState : BState := ⟨"basliksiz", "", [], []⟩

/-- The block and next state built by one iteration of the
`extract_structure` loop once the bbox extraction has succeeded (the other
field coercions never raise). -/
def mkBlockSt (i : Nat) (st : BState) (el : Elem) (bbox : Option (List Rat)) :
    Block × BState :=
  let btype := elemType el
  let text := coerceText el
  let page := coercePage el
  let sid := if btype == "title" then _slug text else st.curSid
  let stitle := if btype == "title" then pyStrip text else st.curTitle
  let idxInSec := lookupD st.secIdx sid 0 + 1
  let chunkId := "page_" ++ toString page ++ "_section_" ++ sid ++ "_" ++ pad3 idxInSec
  let bip := lookupD st.pageCounter page 0 + 1
  ({ block_id := "block_" ++ toString i
     type := btype
     text := text
     page := page
     bbox := bbox
     section_id := pyOrStr sid "basliksiz"
     section_title := pyOrStr stitle ""
     hierarchy_level := _hierarchy_level btype
     chunk_id := chunkId
     block_index_in_page := bip
     is_noise := _is_noise btype text stitle
     normalized_text := _normalize_text (PyVal.str text) },
   ⟨sid, stitle, setAssoc st.pageCounter page bip, setAssoc st.secIdx sid idxInSec⟩)

/-- One iteration of the `extract_structure` loop on element `el` with
index `i`: produces the appended block and the next state, or raises where
`float(...)` raises inside the bbox extraction. -/
def processElement (i : Nat) (st : BState) (el : Elem) : Except Unit (Block × BState) :=
  (_bbox_from_element el).map (mkBlockSt i st el)

/-- The `extract_structure` loop over the remaining elements, starting at
enumeration index `i` in state `st`. -/
def buildLoop (i : Nat) (st : BState) : List Elem → Except Unit (List Block)
  | [] => Except.ok []
  | el :: rest =>
      match processElement i st el with
      | Except.error e => Except.error e
      | Except.ok (b, st2) =>
          match buildLoop (i + 1) st2 rest with
          | Except.error e => Except.error e
          | Except.ok bs => Except.ok (b :: bs)

/-- Number of distinct pages among the blocks of `blocks` whose
`normalized_text` has length at least 25 and equals `nt` — the page set of
one group of `_mark_boilerplate_noise`. -/
def groupPages (blocks : List Block) (nt : String) : Nat :=
  (((blocks.filter (fun b => decide (25 ≤ b.normalized_text.length) &&
      b.normalized_text == nt)).map (fun b => b.page)).dedup).length

/-- Boilerplate widening of one block of the list `blocks`: the flag is
set exactly when the normalized text has length at least 25 and its group
spans at least 3 distinct pages. -/
def mbF (blocks : List Block) (b : Block) : Block :=
  if decide (25 ≤ b.normalized_text.length) &&
      decide (3 ≤ groupPages blocks b.normalized_text) then
    { b with is_noise := true }
  else b

/-- `_mark_boilerplate_noise` as a pure map (the in-place flag mutation of
the source written functionally). -/
def markBoilerplate (blocks : List Block) : List Block :=
  blocks.map (mbF blocks)

/-- Extraction result (`document_type` and the annotated block list). -/
structure ExtractResult where
  document_type : String
  blocks : List Block
deriving DecidableEq

/-- `extract_structure`: the single pass over the elements followed by the
boilerplate pass; raises only where the source raises. -/
def extract_structure (elements : List Elem) : Except Unit ExtractResult :=
  match buildLoop 0 initState elements with
  | Except.error e => Except.error e
  | Except.ok bs => Except.ok { document_type := "unknown", blocks := markBoilerplate bs }

/-- `_should_discard_toc`: type `other` with empty, purely numeric,
contents-marker or dotted-line text. -/
def _should_discard_toc (b : Block) : Bool :=
  b.type == "other" &&
  (let t := pyStrip b.text
   t == "" || pyIsDigits t ||
   containsStr (pyLower t) "içindekiler" || containsStr (pyLower t) "contents" ||
   containsL t.data ['.', '.', '.', '.'])

/-- Content block types of the Chunk Assembler. -/
def contentType (b : Block) : Bool :=
  b.type == "paragraph" || b.type == "list_item" || b.type == "table"

/-- Result of one inner collection loop of `get_embedding_chunks`: the
collected content texts, the collected block ids, and the number of
positions consumed (the loop ends at `start + consumed`). -/
structure RunResult where
  parts : List String
  ids : List String
  consumed : Nat
deriving DecidableEq

/-- The inner `while` loop of `get_embedding_chunks`, fuel-indexed for
structural recursion (the wrapper passes exactly the remaining length, so
the fuel never runs out). -/
def collectRunF (fuel : Nat) (blocks : List Block) (j : Nat) : RunResult :=
  match fuel with
  | 0 => ⟨[], [], 0⟩
  | fuel + 1 =>
      if h : j < blocks.length then
        let nb := blocks.get ⟨j, h⟩
        if nb.type == "title" then ⟨[], [], 0⟩
        else if nb.is_noise || _should_discard_toc nb then
          let r := collectRunF fuel blocks (j + 1)
          ⟨r.parts, r.ids, r.consumed + 1⟩
        else if contentType nb then
          let r := collectRunF fuel blocks (j + 1)
          ⟨pyStrip nb.text :: r.parts, nb.block_id :: r.ids, r.consumed + 1⟩
        else
          let r := collectRunF fuel blocks (j + 1)
          ⟨r.parts, r.ids, r.consumed + 1⟩
      else ⟨[], [], 0⟩

/-- The inner `while` loop of `get_embedding_chunks`, starting at position
`j`: walk forward to the next `title` block or the end, skipping noise and
TOC-discarded blocks, collecting text and id of every content block. -/
def collectRun (blocks : List Block) (j : Nat) : RunResult :=
  collectRunF (blocks.length - j) blocks j

/-- Retrieval chunk produced by `get_embedding_chunks`. -/
structure Chunk where
  title : String
  content : String
  page : Int
  section_id : String
  section_title : String
  chunk_id : String
  block_ids : List String
deriving DecidableEq

/-- The outer `while` loop of `get_embedding_chunks`, fuel-indexed for
structural recursion. -/
def chunkLoopF (fuel : Nat) (blocks : List Block) (i : Nat) : List Chunk :=
  match fuel with
  | 0 => []
  | fuel + 1 =>
      if h : i < blocks.length then
        let b := blocks.get ⟨i, h⟩
        if b.is_noise || _should_discard_toc b then chunkLoopF fuel blocks (i + 1)
        else if b.type == "title" then
          let titleText := pyStrip b.text
          if titleText.length < 4 ||
              (!containsL titleText.data [' '] && titleText.length < 20) then
            chunkLoopF fuel blocks (i + 1)
          else
            let r := collectRun blocks (i + 1)
            let rest := chunkLoopF fuel blocks (i + 1 + r.consumed)
            if !r.parts.isEmpty then
              { title := titleText
                content := String.intercalate "\n\n" r.parts
                page := b.page
                section_id := b.section_id
                section_title := b.section_title
                chunk_id := b.chunk_id
                block_ids := b.block_id :: r.ids } :: rest
            else rest
        else if contentType b then
          let r := collectRun blocks (i + 1)
          { title := ""
            content := String.intercalate "\n\n" (pyStrip b.text :: r.parts)
            page := b.page
            section_id := b.section_id
            section_title := b.section_title
            chunk_id := b.chunk_id
            block_ids := b.block_id :: r.ids } :: chunkLoopF fuel blocks (i + 1 + r.consumed)
        else chunkLoopF fuel blocks (i + 1)
      else []

/-- The outer `while` loop of `get_embedding_chunks` from position `i`. -/
def chunkLoop (blocks : List Block) (i : Nat) : List Chunk :=
  chunkLoopF (blocks.length - i) blocks i

/-- `get_embedding_chunks` over an extraction result. -/
def get_embedding_chunks (result : ExtractResult) : List Chunk :=
  chunkLoop result.blocks 0

/-- Fuel-indexed scan for the next `title`-typed block. -/
def nextStopF (fuel : Nat) (blocks : List Block) (j : Nat) : Nat :=
  match fuel with
  | 0 => blocks.length
  | fuel + 1 =>
      if h : j < blocks.length then
        if (blocks.get ⟨j, h⟩).type == "title" then j else nextStopF fuel blocks (j + 1)
      else blocks.length

/-- Index of the first `title`-typed block at or after position `j`, or the
list length when there is none (the boundary at which the inner collection
loops of the Chunk Assembler stop). -/
def nextStop (blocks : List Block) (j : Nat) : Nat :=
  nextStopF (blocks.length - j) blocks j

/-- Number of distinct pages among the blocks sharing exactly the
normalized text `nt` (the grouping set as the specification words it,
without the length-25 filter of the code; the two agree whenever `nt`
itself has length at least 25, since equal strings have equal length). -/
def sharedPages (blocks : List Block) (nt : String) : Nat :=
  (((blocks.filter (fun b => b.normalized_text == nt)).map (fun b => b.page)).dedup).length

deriving instance DecidableEq for Except

/-- Success test for the exception model (`Except.isOk` spelled out). -/
def isOkE {ε α : Type} : Except ε α → Bool
  | Except.ok _ => true
  | Except.error _ => false

/-- The end-to-end example input of the specification: a title `"Giriş"`
and one paragraph, both on page 1. -/
def c1elems : List Elem :=
  [[("category", PyVal.str "Title"), ("text", PyVal.str "Giriş"),
    ("page_number", PyVal.int 1)],
   [("category", PyVal.str "NarrativeText"), ("text", PyVal.str "Bu bir paragraf."),
    ("page_number", PyVal.int 1)]]

/-- An element whose bbox list carries a non-numeric entry (`None`), on
which `float(bbox[0])` raises. -/
def c2badElem : Elem :=
  [("bbox", PyVal.list [PyVal.none, PyVal.int 0, PyVal.int 0, PyVal.int 0])]

/-- An element with a malformed category, `None` text, an unparseable
page and a falsy dict bbox: every field coercion degrades to its default
(empty text, page 0, null bbox, sentinel section). -/
def c2messyElem : Elem :=
  [("category", PyVal.int 5), ("text", PyVal.none),
   ("page", PyVal.str "x"), ("bbox", PyVal.dict [])]

/-- A dict-form bbox supplying numeric values for all four corners, with
`x1 = 0` (falsy). -/
def c5elem : Elem :=
  [("bbox", PyVal.dict [("x1", PyVal.int 0), ("y1", PyVal.int 1),
    ("x2", PyVal.int 2), ("y2", PyVal.int 3)])]

/-- A dict-form bbox supplying truthy numeric values for all four corners. -/
def c5goodElem : Elem :=
  [("bbox", PyVal.dict [("x1", PyVal.int 7), ("y1", PyVal.int 1),
    ("x2", PyVal.int 2), ("y2", PyVal.int 3)])]

/-- A block literal used by concrete witnesses. -/
def mkB (id ty tx : String) (pg : Int) (noise : Bool) (nt : String) : Block :=
  { block_id := id, type := ty, text := tx, page := pg, bbox := Option.none,
    section_id := "s", section_title := "t", hierarchy_level := 3,
    chunk_id := "c", block_index_in_page := 1, is_noise := noise,
    normalized_text := nt }

/-- Three blocks sharing one long normalized text on three distinct pages. -/
def c6blocks : List Block :=
  [mkB "block_0" "paragraph" "a" 1 false "raporun her sayfasinda tekrarlanan aciklama",
   mkB "block_1" "paragraph" "a" 2 false "raporun her sayfasinda tekrarlanan aciklama",
   mkB "block_2" "paragraph" "a" 3 false "raporun her sayfasinda tekrarlanan aciklama"]

/-- A title whose window up to the end of the list holds only a noise
paragraph. -/
def c7blocks : List Block :=
  [mkB "block_0" "title" "Genel Bakis Bolumu" 1 false "Genel Bakis Bolumu",
   mkB "block_1" "paragraph" "gurultu metni" 1 true "gurultu metni"]

/-- A one-paragraph extraction result for concrete chunk witnesses. -/
def c10result : ExtractResult :=
  { document_type := "unknown",
    blocks := [mkB "block_0" "paragraph" "Temiz bir paragraf metni." 1 false
      "Temiz bir paragraf metni."] }

/-- The extraction result computed on the end-to-end example input. -/
def c3res : ExtractResult :=
  { document_type := "unknown",
    blocks :=
      [{ block_id := "block_0", type := "title", text := "Giriş", page := 1,
         bbox := Option.none, section_id := "giris", section_title := "Giriş",
         hierarchy_level := 1, chunk_id := "page_1_section_giris_001",
         block_index_in_page := 1, is_noise := false, normalized_text := "Giriş" },
       { block_id := "block_1", type := "paragraph", text := "Bu bir paragraf.",
         page := 1, bbox := Option.none, section_id := "giris",
         section_title := "Giriş", hierarchy_level := 3,
         chunk_id := "page_1_section_giris_002", block_index_in_page := 2,
         is_noise := false, normalized_text := "Bu bir paragraf." }] }

theorem pyOrStr_empty_right (a : String) : pyOrStr a "" = a := by
  unfold pyOrStr
  split
  · rename_i h
    exact (eq_of_beq h).symm
  · rfl

theorem pyOrStr_of_ne (a b : String) (h : a ≠ "") : pyOrStr a b = a := by
  unfold pyOrStr
  split
  · rename_i hb
    exact absurd (eq_of_beq hb) h
  · rfl

theorem slug_ne_empty (t : String) : _slug t ≠ "" := by
  simp only [_slug]
  split
  · decide
  · split
    · decide
    · rename_i h
      simpa using h

theorem mbF_type (blocks : List Block) (b : Block) : (mbF blocks b).type = b.type := by
  unfold mbF; split <;> rfl

theorem mbF_text (blocks : List Block) (b : Block) : (mbF blocks b).text = b.text := by
  unfold mbF; split <;> rfl

theorem mbF_section_id (blocks : List Block) (b : Block) :
    (mbF blocks b).section_id = b.section_id := by
  unfold mbF; split <;> rfl

theorem mbF_section_title (blocks : List Block) (b : Block) :
    (mbF blocks b).section_title = b.section_title := by
  unfold mbF; split <;> rfl

theorem mbF_page (blocks : List Block) (b : Block) : (mbF blocks b).page = b.page := by
  unfold mbF; split <;> rfl

theorem mbF_bbox (blocks : List Block) (b : Block) : (mbF blocks b).bbox = b.bbox := by
  unfold mbF; split <;> rfl

theorem markBoilerplate_length (blocks : List Block) :
    (markBoilerplate blocks).length = blocks.length := by
  unfold markBoilerplate; simp

theorem buildLoop_len (elems : List Elem) :
    ∀ (i : Nat) (st : BState) (bs : List Block),
      buildLoop i st elems = Except.ok bs → bs.length = elems.length := by
  induction elems with
  | nil =>
      intro i st bs h
      simp only [buildLoop] at h
      cases h
      rfl
  | cons el rest ih =>
      intro i st bs h
      simp only [buildLoop] at h
      cases hp : processElement i st el with
      | error e => rw [hp] at h; cases h
      | ok p =>
          obtain ⟨b, st2⟩ := p
          rw [hp] at h
          cases hb : buildLoop (i + 1) st2 rest with
          | error e => simp only [hb] at h; cases h
          | ok bs2 =>
              simp only [hb] at h
              cases h
              simp [ih (i + 1) st2 bs2 hb]

/-- C8: for every input element list, the blocks list returned by
`extract_structure` has exactly the same length as the input list: no
element is dropped or duplicated by the Structure Builder. -/
theorem claim8_block_count (elems : List Elem) (res : ExtractResult)
    (h : extract_structure elems = Except.ok res) :
    res.blocks.length = elems.length := by
  unfold extract_structure at h
  cases hb : buildLoop 0 initState elems with
  | error e => rw [hb] at h; cases h
  | ok bs =>
      rw [hb] at h
      cases h
      simp [markBoilerplate_length, buildLoop_len elems 0 initState bs hb]

/-- Witness for C8 at the specification's end-to-end input. -/
theorem claim8_witness :
    ∃ res, extract_structure c1elems = Except.ok res ∧
      res.blocks.length = c1elems.length := by
  cases hE : extract_structure c1elems with
  | error e =>
      have hok : isOkE (extract_structure c1elems) = true := by decide
      rw [hE] at hok
      simp [isOkE] at hok
  | ok r => exact ⟨r, rfl, claim8_block_count c1elems r hE⟩

/-- C1 as stated is false on the code: on the input
`[Title "Giriş" page 1, NarrativeText "Bu bir paragraf." page 1]` the
produced chunk does not carry the title `"Giriş"` (the single-word title
of length 5 is rejected by the short-heading rule of the assembler). -/
theorem claim1_counterexample :
    (extract_structure c1elems).map
        (fun r => (get_embedding_chunks r).map (fun c => (c.title, c.content, c.page)))
      ≠ Except.ok [("Giriş", "Bu bir paragraf.", (1 : Int))] := by decide

/-- C1 amended: the pipeline yields exactly one chunk on that input, with
content `"Bu bir paragraf."` and page 1, but with the empty title: the
heading `"Giriş"` is discarded as an author-like short heading (no space
and fewer than 20 characters), so the paragraph starts a titleless chunk. -/
theorem claim1_chunks :
    (extract_structure c1elems).map
        (fun r => (get_embedding_chunks r).map (fun c => (c.title, c.content, c.page)))
      = Except.ok [("", "Bu bir paragraf.", (1 : Int))] := by decide

/-- C2 as stated is false on the code: an element whose bbox list holds a
non-numeric entry makes `float(bbox[0])` raise, and the exception is not
caught; `extract_structure` raises on this input. -/
theorem claim2_counterexample :
    extract_structure [c2badElem] = Except.error () := by decide

theorem buildLoop_ok (elems : List Elem) :
    ∀ (i : Nat) (st : BState),
      (∀ el ∈ elems, isOkE (_bbox_from_element el) = true) →
      ∃ bs, buildLoop i st elems = Except.ok bs := by
  induction elems with
  | nil => intro i st _; exact ⟨[], rfl⟩
  | cons el rest ih =>
      intro i st h
      have hel := h el (by simp)
      cases hbb : _bbox_from_element el with
      | error e => rw [hbb] at hel; simp [isOkE] at hel
      | ok bb =>
          obtain ⟨bs2, hbs2⟩ := ih (i + 1) (mkBlockSt i st el bb).2
            (fun e he => h e (by simp [he]))
          refine ⟨(mkBlockSt i st el bb).1 :: bs2, ?_⟩
          simp only [buildLoop, processElement, hbb, Except.map, hbs2]

/-- C5 as stated is false on the code: the dict bbox
`x1 = 0, y1 = 1, x2 = 2, y2 = 3` supplies a numeric value for all four
corners, yet the bbox is dropped — `bbox.get("x1") or bbox.get("left")`
treats the falsy value `0` as missing. -/
theorem claim5_counterexample :
    _bbox_from_element c5elem = Except.ok Option.none ∧
      (Except.ok Option.none : Except Unit (Option (List Rat)))
        ≠ Except.ok (some [(0 : Rat), 1, 2, 3]) := by
  constructor
  · decide
  · decide

theorem isNoneV_eq_false_of_pyFloat (v : PyVal) (q : Rat) (h : pyFloat v = some q) :
    isNoneV v = false := by
  cases v <;> simp_all [pyFloat, isNoneV]

/-- C5 amended: for a dict-form bbox, the produced bbox is
`[x1, y1, x2, y2]` when every corner, as resolved by the Python `or` of
its two key lookups, converts under `float(...)`; it is dropped as absent
whenever at least one resolved corner is `None` — in particular a corner
whose only supplied value is falsy (such as `0`) resolves through `or` and
can be dropped even though the key is present. -/
theorem claim5_bbox_dict (el : Elem) (kvs : List (String × PyVal))
    (hd : bboxResolve el = PyVal.dict kvs) :
    (∀ q1 q2 q3 q4 : Rat,
      pyFloat (cornerRes kvs "x1" "left") = some q1 →
      pyFloat (cornerRes kvs "y1" "top") = some q2 →
      pyFloat (cornerRes kvs "x2" "right") = some q3 →
      pyFloat (cornerRes kvs "y2" "bottom") = some q4 →
      _bbox_from_element el = Except.ok (some [q1, q2, q3, q4])) ∧
    ((isNoneV (cornerRes kvs "x1" "left") || isNoneV (cornerRes kvs "y1" "top") ||
      isNoneV (cornerRes kvs "x2" "right") || isNoneV (cornerRes kvs "y2" "bottom")) = true →
      _bbox_from_element el = Except.ok Option.none) := by
  constructor
  · intro q1 q2 q3 q4 h1 h2 h3 h4
    have n1 := isNoneV_eq_false_of_pyFloat _ _ h1
    have n2 := isNoneV_eq_false_of_pyFloat _ _ h2
    have n3 := isNoneV_eq_false_of_pyFloat _ _ h3
    have n4 := isNoneV_eq_false_of_pyFloat _ _ h4
    simp only [_bbox_from_element, hd]
    simp [n1, n2, n3, n4, h1, h2, h3, h4]
  · intro hnone
    simp only [_bbox_from_element, hd]
    simp [hnone]

/-- Witness for C5 on a dict bbox with truthy numeric corners. -/
theorem claim5_witness :
    bboxResolve c5goodElem = PyVal.dict [("x1", PyVal.int 7), ("y1", PyVal.int 1),
        ("x2", PyVal.int 2), ("y2", PyVal.int 3)] ∧
      _bbox_from_element c5goodElem = Except.ok (some [(7 : Rat), 1, 2, 3]) :=
  ⟨rfl,
   (claim5_bbox_dict c5goodElem
       [("x1", PyVal.int 7), ("y1", PyVal.int 1), ("x2", PyVal.int 2), ("y2", PyVal.int 3)]
       rfl).1 7 1 2 3 (by decide) (by decide) (by decide) (by decide)⟩

theorem groupPages_eq_shared (blocks : List Block) (nt : String)
    (h : 25 ≤ nt.length) : groupPages blocks nt = sharedPages blocks nt := by
  unfold groupPages sharedPages
  have : blocks.filter (fun b => decide (25 ≤ b.normalized_text.length) &&
      b.normalized_text == nt) = blocks.filter (fun b => b.normalized_text == nt) := by
    apply List.filter_congr
    intro b _
    cases hbe : b.normalized_text == nt
    · simp
    · have he : b.normalized_text = nt := eq_of_beq hbe
      simp [he, h]
  rw [this]

theorem markBoilerplate_getElem (blocks : List Block) (i : Nat) :
    (markBoilerplate blocks)[i]? = (blocks[i]?).map (mbF blocks) := by
  unfold markBoilerplate
  simp

/-- C6: after the boilerplate pass a block's noise flag is exactly its old
flag widened by the boilerplate condition — normalized text of length at
least 25 whose sharing blocks span at least 3 distinct pages; the pass
never lowers a flag, and a text spanning fewer than 3 distinct pages
leaves the flag unchanged. -/
theorem claim6_boilerplate (blocks : List Block) (i : Nat) (b : Block)
    (h : (markBoilerplate blocks)[i]? = some b) :
    ∃ b0, blocks[i]? = some b0 ∧
      b.is_noise = (b0.is_noise ||
        (decide (25 ≤ b0.normalized_text.length) &&
         decide (3 ≤ sharedPages blocks b0.normalized_text))) ∧
      (b0.is_noise = true → b.is_noise = true) ∧
      (sharedPages blocks b0.normalized_text < 3 → b.is_noise = b0.is_noise) := by
  rw [markBoilerplate_getElem] at h
  cases h0 : blocks[i]? with
  | none => rw [h0] at h; cases h
  | some b0 =>
      rw [h0] at h
      simp only [Option.map_some'] at h
      cases h
      have hmb : (mbF blocks b0).is_noise = (b0.is_noise ||
          (decide (25 ≤ b0.normalized_text.length) &&
           decide (3 ≤ groupPages blocks b0.normalized_text))) := by
        unfold mbF
        split
        · rename_i hcnd
          simp [hcnd]
        · rename_i hcnd
          rw [Bool.not_eq_true] at hcnd
          simp [hcnd]
      have hmb2 : (mbF blocks b0).is_noise = (b0.is_noise ||
          (decide (25 ≤ b0.normalized_text.length) &&
           decide (3 ≤ sharedPages blocks b0.normalized_text))) := by
        rw [hmb]
        by_cases h25 : 25 ≤ b0.normalized_text.length
        · rw [groupPages_eq_shared blocks _ h25]
        · simp [h25]
      refine ⟨b0, rfl, hmb2, ?_, ?_⟩
      · intro hn
        rw [hmb2, hn]
        simp
      · intro hlt
        rw [hmb2]
        have : decide (3 ≤ sharedPages blocks b0.normalized_text) = false := by
          simp
          omega
        simp [this]

/-- Witness for C6 on three blocks sharing one long text on pages 1-3. -/
theorem claim6_witness :
    ∃ b0, c6blocks[0]? = some b0 ∧
      (mkB "block_0" "paragraph" "a" 1 true
          "raporun her sayfasinda tekrarlanan aciklama").is_noise
        = (b0.is_noise ||
          (decide (25 ≤ b0.normalized_text.length) &&
           decide (3 ≤ sharedPages c6blocks b0.normalized_text))) ∧
      (b0.is_noise = true →
        (mkB "block_0" "paragraph" "a" 1 true
          "raporun her sayfasinda tekrarlanan aciklama").is_noise = true) ∧
      (sharedPages c6blocks b0.normalized_text < 3 →
        (mkB "block_0" "paragraph" "a" 1 true
            "raporun her sayfasinda tekrarlanan aciklama").is_noise = b0.is_noise) :=
  claim6_boilerplate c6blocks 0 _ (by decide)

/-- C4 as stated is false on the code: `"www.a.b.com"` contains a URL
marker and has zero characters from the spec's separator set
(space, comma, semicolon), so the claim predicts noise — but the code also
counts dots (the set is the string `" .,;"`), sees 3 separators, and does
not flag the text; no other rule fires either. -/
theorem claim4_counterexample :
    urlSearch (pyLower (pyStrip "www.a.b.com")) = true ∧
      specSepCount (pyStrip "www.a.b.com") < 3 ∧
      _is_noise "paragraph" "www.a.b.com" "" = false ∧
      pyStrip "www.a.b.com" ≠ "" ∧
      pyIsDigits (pyStrip "www.a.b.com") = false ∧
      dateSearch (pyStrip "www.a.b.com") = false ∧
      copyrightSearch (pyLower (pyStrip "www.a.b.com")) = false := by
  refine ⟨by decide, by decide, by decide, by decide, by decide, by decide, by decide⟩

/-- C4 amended: with the separator set read off the code — space, dot,
comma, semicolon — for a block that is not header/footer and whose
stripped text survives rules 2-6, a text containing a URL marker is noise
when it has fewer than 3 separators, and with 3 or more separators the URL
rule does not fire, the outcome being decided by the remaining rules 8-11
alone. -/
theorem claim4_url_rule (block_type text section_title : String)
    (h1 : (block_type == "footer" || block_type == "header") = false)
    (h2 : (pyStrip text == "") = false)
    (h3 : (decide ((pyStrip text).length ≤ 2) &&
      (pyStrip text == "." || pyStrip text == ".." || pyStrip text == "-" ||
       pyStrip text == "–" || pyStrip text == "—")) = false)
    (h4 : pyIsDigits (pyStrip text) = false)
    (h5 : (dateSearch (pyStrip text) && decide ((pyStrip text).length < 80)) = false)
    (h6 : copyrightSearch (pyLower (pyStrip text)) = false) :
    (urlSearch (pyLower (pyStrip text)) = true → sepCount (pyStrip text) < 3 →
      _is_noise block_type text section_title = true) ∧
    (urlSearch (pyLower (pyStrip text)) = true → 3 ≤ sepCount (pyStrip text) →
      _is_noise block_type text section_title =
        (tocSection section_title ||
         (containsStr (pyLower (pyStrip text)) "içindekiler" &&
          decide ((pyStrip text).length < 150)) ||
         (tocLineMatch (pyStrip text) && decide ((pyStrip text).length < 120)) ||
         (decide ((pyStrip text).length < 120) &&
          uiMarkers.any (fun m => containsStr (pyLower (pyStrip text)) m)))) := by
  constructor
  · intro hurl hsep
    simp only [_is_noise]
    simp [hurl, hsep]
  · intro hurl hsep
    have hsep2 : decide (sepCount (pyStrip text) < 3) = false := by
      simp
      omega
    simp only [_is_noise]
    simp [h1, h2, h3, h4, h5, h6, hsep2]

/-- Witness for C4 on `"www.site.com"`: a URL marker with only 2
separator characters, flagged noise by the URL rule. -/
theorem claim4_witness :
    ("paragraph" == "footer" || "paragraph" == "header") = false ∧
      (pyStrip "www.site.com" == "") = false ∧
      pyIsDigits (pyStrip "www.site.com") = false ∧
      urlSearch (pyLower (pyStrip "www.site.com")) = true ∧
      sepCount (pyStrip "www.site.com") < 3 ∧
      _is_noise "paragraph" "www.site.com" "" = true :=
  ⟨by decide, by decide, by decide, by decide, by decide,
   (claim4_url_rule "paragraph" "www.site.com" "" (by decide) (by decide)
      (by decide) (by decide) (by decide) (by decide)).1 (by decide) (by decide)⟩

theorem processElement_fields (i : Nat) (st : BState) (el : Elem) (b : Block) (st2 : BState)
    (h : processElement i st el = Except.ok (b, st2)) (hsid : st.curSid ≠ "") :
    (b.type = "title" →
      b.section_id = _slug b.text ∧ b.section_title = pyStrip b.text ∧
      st2.curSid = _slug b.text ∧ st2.curTitle = pyStrip b.text) ∧
    (b.type ≠ "title" →
      b.section_id = st.curSid ∧ b.section_title = st.curTitle ∧
      st2.curSid = st.curSid ∧ st2.curTitle = st.curTitle) ∧
    st2.curSid ≠ "" := by
  unfold processElement at h
  cases hbb : _bbox_from_element el with
  | error e => rw [hbb] at h; simp [Except.map] at h
  | ok bb =>
      rw [hbb] at h
      simp only [Except.map] at h
      injection h with h2
      have hb : b = (mkBlockSt i st el bb).1 := by rw [h2]
      have hst : st2 = (mkBlockSt i st el bb).2 := by rw [h2]
      subst hb
      subst hst
      by_cases ht : (elemType el == "title") = true
    
      · refine ⟨?_, ?_, ?_⟩
        · intro _
          refine ⟨?_, ?_, ?_, ?_⟩
          · simp only [mkBlockSt, ht, if_true]
            exact pyOrStr_of_ne _ _ (slug_ne_empty _)
          · simp only [mkBlockSt, ht, if_true]
            exact pyOrStr_empty_right _
          · simp only [mkBlockSt, ht, if_true]
          · simp only [mkBlockSt, ht, if_true]
        · intro hcon
          exact absurd (by simp only [mkBlockSt]; exact eq_of_beq ht) hcon
        · simp only [mkBlockSt, ht, if_true]
          exact slug_ne_empty _
      · refine ⟨?_, ?_, ?_⟩
        · intro hcon
          have : (mkBlockSt i st el bb).1.type = elemType el := by simp only [mkBlockSt]
          rw [this] at hcon
          exact absurd (beq_iff_eq.mpr hcon) ht
        · intro _
          refine ⟨?_, ?_, ?_, ?_⟩
          · simp only [mkBlockSt, ht, if_false]
            exact pyOrStr_of_ne _ _ hsid
          · simp only [mkBlockSt, ht, if_false]
            exact pyOrStr_empty_right _
          · simp [mkBlockSt, ht]
          · simp [mkBlockSt, ht]
        · simp only [mkBlockSt, ht, if_false]
          exact hsid

theorem buildLoop_section (elems : List Elem) :
    ∀ (i : Nat) (st : BState) (bs : List Block),
      buildLoop i st elems = Except.ok bs → st.curSid ≠ "" →
      ∀ (k : Nat) (hk : k < bs.length),
        ((∀ (j : Nat) (hj : j < bs.length), j ≤ k → (bs.get ⟨j, hj⟩).type ≠ "title") →
          (bs.get ⟨k, hk⟩).section_id = st.curSid ∧
          (bs.get ⟨k, hk⟩).section_title = st.curTitle) ∧
        (∀ (j : Nat) (hj : j < bs.length), j ≤ k → (bs.get ⟨j, hj⟩).type = "title" →
          (∀ (l : Nat) (hl : l < bs.length), j < l → l ≤ k →
            (bs.get ⟨l, hl⟩).type ≠ "title") →
          (bs.get ⟨k, hk⟩).section_id = _slug (bs.get ⟨j, hj⟩).text ∧
          (bs.get ⟨k, hk⟩).section_title = pyStrip (bs.get ⟨j, hj⟩).text) := by
  induction elems with
  | nil =>
      intro i st bs h hsid k hk
      simp only [buildLoop] at h
      cases h
      exact absurd hk (by simp)
  | cons el rest ih =>
      intro i st bs h hsid k hk
      simp only [buildLoop] at h
      cases hp : processElement i st el with
      | error e => rw [hp] at h; cases h
      | ok p =>
          obtain ⟨b, st2⟩ := p
          rw [hp] at h
          cases hb2 : buildLoop (i + 1) st2 rest with
          | error e => simp only [hb2] at h; cases h
          | ok bs2 =>
              simp only [hb2] at h
              cases h
              obtain ⟨hTitle, hNonTitle, hsid2⟩ :=
                processElement_fields i st el b st2 hp hsid
              cases k with
              | zero =>
                  constructor
                  · intro hP
                    have hbt : b.type ≠ "title" := by
                      have := hP 0 hk (Nat.le_refl 0)
                      simpa using this
                    obtain ⟨e1, e2, _, _⟩ := hNonTitle hbt
                    exact ⟨e1, e2⟩
                  · intro j hj hjk hjt hNo
                    have hj0 : j = 0 := Nat.le_zero.mp hjk
                    subst hj0
                    simp only [List.get_eq_getElem, List.getElem_cons_zero] at hjt ⊢
                    obtain ⟨e1, e2, _, _⟩ := hTitle hjt
                    exact ⟨e1, e2⟩
              | succ k2 =>
                  have hk2 : k2 < bs2.length := by simpa using hk
                  have IH := ih (i + 1) st2 bs2 hb2 hsid2 k2 hk2
                  constructor
                  · intro hP
                    have hP2 : ∀ (j : Nat) (hj : j < bs2.length), j ≤ k2 →
                        (bs2.get ⟨j, hj⟩).type ≠ "title" := by
                      intro j hj hjk
                      have := hP (j + 1) (by simpa using Nat.succ_lt_succ hj)
                        (Nat.succ_le_succ hjk)
                      simpa using this
                    have hbt : b.type ≠ "title" := by
                      have := hP 0 (by simp) (Nat.zero_le _)
                      simpa using this
                    obtain ⟨_, _, s1, s2⟩ := hNonTitle hbt
                    have hres := IH.1 hP2
                    simp only [List.get_eq_getElem] at hres
                    simp only [List.get_eq_getElem, List.getElem_cons_succ]
                    rw [hres.1, hres.2, s1, s2]
                    exact ⟨rfl, rfl⟩
                  · intro j hj hjk hjt hNo
                    cases j with
                    | zero =>
                        simp only [List.get_eq_getElem, List.getElem_cons_zero] at hjt
                        obtain ⟨_, _, s1, s2⟩ := hTitle hjt
                        have hP2 : ∀ (l : Nat) (hl : l < bs2.length), l ≤ k2 →
                            (bs2.get ⟨l, hl⟩).type ≠ "title" := by
                          intro l hl hlk
                          have := hNo (l + 1) (by simpa using Nat.succ_lt_succ hl)
                            (Nat.succ_pos l) (Nat.succ_le_succ hlk)
                          simpa using this
                        have hres := IH.1 hP2
                        simp only [List.get_eq_getElem] at hres
                        simp only [List.get_eq_getElem, List.getElem_cons_succ, List.getElem_cons_zero]
                        rw [hres.1, hres.2, s1, s2]
                        exact ⟨rfl, rfl⟩
                    | succ j2 =>
                        have hj2 : j2 < bs2.length := by simpa using hj
                        have hjt2 : (bs2.get ⟨j2, hj2⟩).type = "title" := by
                          simpa using hjt
                        have hjk2 : j2 ≤ k2 := Nat.succ_le_succ_iff.mp hjk
                        have hNo2 : ∀ (l : Nat) (hl : l < bs2.length), j2 < l → l ≤ k2 →
                            (bs2.get ⟨l, hl⟩).type ≠ "title" := by
                          intro l hl h1 h2
                          have := hNo (l + 1) (by simpa using Nat.succ_lt_succ hl)
                            (Nat.succ_lt_succ h1) (Nat.succ_le_succ h2)
                          simpa using this
                        have hres := IH.2 j2 hj2 hjk2 hjt2 hNo2
                        simp only [List.get_eq_getElem] at hres
                        simp only [List.get_eq_getElem, List.getElem_cons_succ]
                        exact hres

/-- C3: every block's `section_id` is `_slug` of the text of the nearest
title-typed block at or before it, and its `section_title` is that title's
trimmed text; before any title the sentinel `"basliksiz"` and the empty
title apply.  An empty or whitespace-only title is covered by the same
statement: `_slug` of such text is the sentinel slug and its trim is
empty, and the cursor is still updated. -/
theorem claim3_section_tracking (elems : List Elem) (res : ExtractResult)
    (hres : extract_structure elems = Except.ok res)
    (k : Nat) (hk : k < res.blocks.length) :
    ((∀ (j : Nat) (hj : j < res.blocks.length), j ≤ k →
        (res.blocks.get ⟨j, hj⟩).type ≠ "title") →
      (res.blocks.get ⟨k, hk⟩).section_id = "basliksiz" ∧
      (res.blocks.get ⟨k, hk⟩).section_title = "") ∧
    (∀ (j : Nat) (hj : j < res.blocks.length), j ≤ k →
      (res.blocks.get ⟨j, hj⟩).type = "title" →
      (∀ (l : Nat) (hl : l < res.blocks.length), j < l → l ≤ k →
        (res.blocks.get ⟨l, hl⟩).type ≠ "title") →
      (res.blocks.get ⟨k, hk⟩).section_id = _slug (res.blocks.get ⟨j, hj⟩).text ∧
      (res.blocks.get ⟨k, hk⟩).section_title =
        pyStrip (res.blocks.get ⟨j, hj⟩).text) := by
  unfold extract_structure at hres
  cases hb : buildLoop 0 initState elems with
  | error e => rw [hb] at hres; cases hres
  | ok bs =>
      rw [hb] at hres
      cases hres
      have base := buildLoop_section elems 0 initState bs hb (by decide)
      simp only [List.get_eq_getElem] at base
      simp only [markBoilerplate, List.get_eq_getElem, List.getElem_map,
        List.length_map, mbF_type, mbF_text, mbF_section_id, mbF_section_title] at hk ⊢
      exact base k hk

/-- Witness for C3 on the end-to-end example: the paragraph at index 1
carries the section of the title at index 0. -/
theorem claim3_witness :
    extract_structure c1elems = Except.ok c3res ∧
      (c3res.blocks.get ⟨1, by decide⟩).section_id
          = _slug (c3res.blocks.get ⟨0, by decide⟩).text ∧
      (c3res.blocks.get ⟨1, by decide⟩).section_title
          = pyStrip (c3res.blocks.get ⟨0, by decide⟩).text :=
  ⟨by decide,
   (claim3_section_tracking c1elems c3res (by decide) 1 (by decide)).2 0 (by decide)
     (Nat.zero_le 1) (by decide)
     (fun l hl h1 h2 => by
        have hl1 : l = 1 := by omega
        subst hl1
        exact (by decide : (c3res.blocks.get ⟨1, by decide⟩).type ≠ "title"))⟩

theorem buildLoop_fields (elems : List Elem) :
    ∀ (i : Nat) (st : BState) (bs : List Block),
      buildLoop i st elems = Except.ok bs →
      ∀ (k : Nat) (hk : k < elems.length) (hk2 : k < bs.length),
        (bs.get ⟨k, hk2⟩).text = coerceText (elems.get ⟨k, hk⟩) ∧
        (bs.get ⟨k, hk2⟩).page = coercePage (elems.get ⟨k, hk⟩) ∧
        _bbox_from_element (elems.get ⟨k, hk⟩) = Except.ok (bs.get ⟨k, hk2⟩).bbox := by
  induction elems with
  | nil => intro i st bs h k hk hk2; exact absurd hk (by simp)
  | cons el rest ih =>
      intro i st bs h k hk hk2
      simp only [buildLoop] at h
      cases hp : processElement i st el with
      | error e => rw [hp] at h; cases h
      | ok p =>
          obtain ⟨b, st2⟩ := p
          rw [hp] at h
          cases hb2 : buildLoop (i + 1) st2 rest with
          | error e => simp only [hb2] at h; cases h
          | ok bs2 =>
              simp only [hb2] at h
              cases h
              cases k with
              | zero =>
                  unfold processElement at hp
                  cases hbb : _bbox_from_element el with
                  | error e => rw [hbb] at hp; simp [Except.map] at hp
                  | ok bb =>
                      rw [hbb] at hp
                      simp only [Except.map] at hp
                      injection hp with hp2
                      have hb : b = (mkBlockSt i st el bb).1 := by rw [hp2]
                      subst hb
                      refine ⟨rfl, rfl, ?_⟩
                      show _bbox_from_element el
                          = Except.ok (mkBlockSt i st el bb).1.bbox
                      rw [hbb]
                      rfl
              | succ k2 =>
                  exact ih (i + 1) st2 bs2 hb2 k2 (by simpa using hk)
                    (by simpa using hk2)

/-- C2 amended: `extract_structure` raises no exception and returns a
result — with malformed fields degrading to defaults: a missing or `None`
text yields the empty text, an unresolvable or unparseable page yields
page 0, an absent or incomplete bbox yields the null bbox, and blocks
before any title carry the sentinel section — provided the bbox
extraction itself raises on no element; a bbox entry on which `float(...)`
raises (a non-numeric corner) propagates as an exception. -/
theorem claim2_no_raise (elems : List Elem)
    (h : ∀ el ∈ elems, isOkE (_bbox_from_element el) = true) :
    ∃ res, extract_structure elems = Except.ok res ∧
      res.blocks.length = elems.length ∧
      ∀ (k : Nat) (hk : k < elems.length) (hk2 : k < res.blocks.length),
        ((pyGetD (elems.get ⟨k, hk⟩) "text" (PyVal.str "") = PyVal.none ∨
            pyGetD (elems.get ⟨k, hk⟩) "text" (PyVal.str "") = PyVal.str "") →
          (res.blocks.get ⟨k, hk2⟩).text = "") ∧
        (pyInt (pyOr (pyGet (elems.get ⟨k, hk⟩) "page_number")
            (pyGet (elems.get ⟨k, hk⟩) "page")) = Option.none →
          (res.blocks.get ⟨k, hk2⟩).page = 0) ∧
        (_bbox_from_element (elems.get ⟨k, hk⟩) = Except.ok Option.none →
          (res.blocks.get ⟨k, hk2⟩).bbox = Option.none) ∧
        ((∀ (j : Nat) (hj : j < res.blocks.length), j ≤ k →
            (res.blocks.get ⟨j, hj⟩).type ≠ "title") →
          (res.blocks.get ⟨k, hk2⟩).section_id = "basliksiz" ∧
          (res.blocks.get ⟨k, hk2⟩).section_title = "") := by
  obtain ⟨bs, hbs⟩ := buildLoop_ok elems 0 initState h
  have hlen : bs.length = elems.length := buildLoop_len elems 0 initState bs hbs
  refine ⟨{ document_type := "unknown", blocks := markBoilerplate bs }, ?_, ?_, ?_⟩
  · simp [extract_structure, hbs]
  · simp [markBoilerplate_length, hlen]
  · intro k hk hk2
    dsimp only at hk2 ⊢
    have hk2b : k < bs.length := by
      rw [markBoilerplate_length] at hk2
      exact hk2
    have hget : (markBoilerplate bs).get ⟨k, hk2⟩ = mbF bs (bs.get ⟨k, hk2b⟩) := by
      simp [markBoilerplate, List.get_eq_getElem, List.getElem_map]
    have hf := buildLoop_fields elems 0 initState bs hbs k hk hk2b
    refine ⟨?_, ?_, ?_, ?_⟩
    · intro hv
      rw [hget, mbF_text, hf.1]
      rcases hv with hv | hv <;>
        (simp only [List.get_eq_getElem] at hv; simp [coerceText, hv])
    · intro hv
      rw [hget, mbF_page, hf.2.1]
      unfold coercePage
      cases hvv : pyOr (pyGet (elems.get ⟨k, hk⟩) "page_number")
          (pyGet (elems.get ⟨k, hk⟩) "page")
      case none => rfl
      all_goals (rw [hvv] at hv; simp [hv])
    · intro hv
      rw [hget, mbF_bbox]
      have h2 := hf.2.2
      rw [hv] at h2
      injection h2 with h3
      exact h3.symm
    · intro hP
      have base := buildLoop_section elems 0 initState bs hbs (by decide) k hk2b
      simp only [List.get_eq_getElem] at base
      simp only [markBoilerplate, List.get_eq_getElem, List.getElem_map,
        List.length_map, mbF_type, mbF_section_id, mbF_section_title] at hP ⊢
      exact base.1 hP

/-- Witness for C2 on an element whose category, text, page and bbox
fields are all malformed: extraction succeeds and the block carries the
defaults (empty text, page 0, null bbox, sentinel section). -/
theorem claim2_witness :
    (∀ el ∈ [c2messyElem], isOkE (_bbox_from_element el) = true) ∧
      (∃ res, extract_structure [c2messyElem] = Except.ok res ∧
        res.blocks.length = ([c2messyElem] : List Elem).length ∧
        ∀ (k : Nat) (hk : k < ([c2messyElem] : List Elem).length)
            (hk2 : k < res.blocks.length),
          ((pyGetD (([c2messyElem] : List Elem).get ⟨k, hk⟩) "text" (PyVal.str "")
                = PyVal.none ∨
              pyGetD (([c2messyElem] : List Elem).get ⟨k, hk⟩) "text" (PyVal.str "")
                = PyVal.str "") →
            (res.blocks.get ⟨k, hk2⟩).text = "") ∧
          (pyInt (pyOr (pyGet (([c2messyElem] : List Elem).get ⟨k, hk⟩) "page_number")
              (pyGet (([c2messyElem] : List Elem).get ⟨k, hk⟩) "page")) = Option.none →
            (res.blocks.get ⟨k, hk2⟩).page = 0) ∧
          (_bbox_from_element (([c2messyElem] : List Elem).get ⟨k, hk⟩)
              = Except.ok Option.none →
            (res.blocks.get ⟨k, hk2⟩).bbox = Option.none) ∧
          ((∀ (j : Nat) (hj : j < res.blocks.length), j ≤ k →
              (res.blocks.get ⟨j, hj⟩).type ≠ "title") →
            (res.blocks.get ⟨k, hk2⟩).section_id = "basliksiz" ∧
            (res.blocks.get ⟨k, hk2⟩).section_title = "")) :=
  ⟨by decide, claim2_no_raise [c2messyElem] (by decide)⟩

theorem splitWsAux_tokens (cs : List Char) :
    ∀ acc, (∀ c ∈ acc, pyIsWs c = false) →
      ∀ t ∈ splitWsAux cs acc, t ≠ [] ∧ ∀ c ∈ t, pyIsWs c = false := by
  induction cs with
  | nil =>
      intro acc hacc t ht
      simp only [splitWsAux] at ht
      split at ht
      · simp at ht
      · rename_i hne
        simp only [List.mem_singleton] at ht
        subst ht
        have hacc2 : acc ≠ [] := by simpa [List.isEmpty_iff] using hne
        constructor
        · simpa using hacc2
        · intro c hc
          exact hacc c (List.mem_reverse.mp hc)
  | cons c cs ih =>
      intro acc hacc t ht
      simp only [splitWsAux] at ht
      by_cases hc : pyIsWs c = true
      · rw [if_pos hc] at ht
        by_cases hae : acc.isEmpty = true
        · rw [if_pos hae] at ht
          exact ih [] (by simp) t ht
        · rw [if_neg hae] at ht
          rcases List.mem_cons.mp ht with h1 | h2
          · subst h1
            have hacc2 : acc ≠ [] := by simpa [List.isEmpty_iff] using hae
            exact ⟨by simpa using hacc2, fun d hd => hacc d (List.mem_reverse.mp hd)⟩
          · exact ih [] (by simp) t h2
      · rw [if_neg hc] at ht
        refine ih (c :: acc) ?_ t ht
        intro d hd
        rcases List.mem_cons.mp hd with h1 | h2
        · subst h1
          simpa using hc
        · exact hacc d h2

theorem splitWsAux_append (t : List Char) :
    ∀ (l acc : List Char), (∀ c ∈ t, pyIsWs c = false) →
      splitWsAux (t ++ l) acc = splitWsAux l (t.reverse ++ acc) := by
  induction t with
  | nil => intro l acc _; simp
  | cons c t ih =>
      intro l acc h
      have hc : pyIsWs c = false := h c (by simp)
      simp only [List.cons_append, splitWsAux, hc, Bool.false_eq_true, if_false,
        List.append_eq]
      rw [ih l (c :: acc) (fun d hd => h d (by simp [hd]))]
      simp

theorem splitWsAux_allWs (w : List Char) :
    ∀ acc, (∀ c ∈ w, pyIsWs c = true) →
      splitWsAux w acc = if acc.isEmpty then [] else [acc.reverse] := by
  induction w with
  | nil => intro acc _; rfl
  | cons c w ih =>
      intro acc h
      have hc := h c (by simp)
      simp only [splitWsAux, hc, if_true]
      by_cases hae : acc.isEmpty = true
      · rw [if_pos hae, if_pos hae, ih [] (fun d hd => h d (by simp [hd]))]
        rfl
      · rw [if_neg hae, if_neg hae, ih [] (fun d hd => h d (by simp [hd]))]
        rfl

theorem splitWs_joinSp (ts : List (List Char))
    (h : ∀ t ∈ ts, t ≠ [] ∧ ∀ c ∈ t, pyIsWs c = false) :
    splitWs (joinSp ts) = ts := by
  induction ts with
  | nil => rfl
  | cons t ts ih =>
      obtain ⟨hne, hnw⟩ := h t (by simp)
      cases ts with
      | nil =>
          show splitWsAux (joinSp [t]) [] = [t]
          have h2 : joinSp [t] = t ++ [] := by simp [joinSp]
          rw [h2, splitWsAux_append t [] [] hnw]
          have h3 : (t.reverse ++ []).isEmpty = false := by
            simp [List.isEmpty_iff, hne]
          simp [splitWsAux, h3, hne]
      | cons t2 ts2 =>
          show splitWsAux (joinSp (t :: t2 :: ts2)) [] = t :: t2 :: ts2
          have h2 : joinSp (t :: t2 :: ts2) = t ++ ' ' :: joinSp (t2 :: ts2) := rfl
          rw [h2, splitWsAux_append t _ [] hnw]
          have hsp : pyIsWs ' ' = true := by decide
          have h3 : (t.reverse ++ []).isEmpty = false := by
            simp [List.isEmpty_iff, hne]
          simp only [splitWsAux, hsp, if_true, h3, Bool.false_eq_true, if_false]
          have ih2 := ih (fun u hu => h u (by simp [hu]))
          show (t.reverse ++ []).reverse :: splitWsAux (joinSp (t2 :: ts2)) [] = t :: t2 :: ts2
          rw [show splitWsAux (joinSp (t2 :: ts2)) [] = splitWs (joinSp (t2 :: ts2)) from rfl,
            ih2]
          simp

theorem splitWs_dropWhile (l : List Char) :
    splitWs (l.dropWhile pyIsWs) = splitWs l := by
  induction l with
  | nil => rfl
  | cons c l ih =>
      by_cases hc : pyIsWs c = true
      · have h1 : (c :: l).dropWhile pyIsWs = l.dropWhile pyIsWs := by
          simp [List.dropWhile_cons, hc]
        rw [h1, ih]
        show splitWs l = splitWs (c :: l)
        simp [splitWs, splitWsAux, hc]
      · have h1 : (c :: l).dropWhile pyIsWs = c :: l := by
          simp [List.dropWhile_cons, hc]
        rw [h1]

theorem splitWsAux_append_ws (w : List Char) (hw : ∀ c ∈ w, pyIsWs c = true) :
    ∀ (l acc : List Char), splitWsAux (l ++ w) acc = splitWsAux l acc := by
  intro l
  induction l with
  | nil =>
      intro acc
      simp only [List.nil_append]
      rw [splitWsAux_allWs w acc hw]
      rfl
  | cons c l ih =>
      intro acc
      simp only [List.cons_append, splitWsAux]
      by_cases hc : pyIsWs c = true
      · simp only [hc, if_true]
        by_cases hae : acc.isEmpty = true <;> simp [hae, ih]
      · rw [Bool.not_eq_true] at hc
        simp [hc, ih]

theorem pyStripChars_decomp (l : List Char) :
    ∃ w, (∀ c ∈ w, pyIsWs c = true) ∧
      l.dropWhile pyIsWs = pyStripChars l ++ w := by
  refine ⟨(((l.dropWhile pyIsWs).reverse).takeWhile pyIsWs).reverse, ?_, ?_⟩
  · intro c hc
    exact List.mem_takeWhile_imp (List.mem_reverse.mp hc)
  · have h1 := List.takeWhile_append_dropWhile pyIsWs (l.dropWhile pyIsWs).reverse
    have h2 := congrArg List.reverse h1
    simp only [List.reverse_append, List.reverse_reverse] at h2
    exact h2.symm

theorem splitWs_strip (l : List Char) : splitWs (pyStripChars l) = splitWs l := by
  obtain ⟨w, hw, hdecomp⟩ := pyStripChars_decomp l
  have h1 : splitWs (l.dropWhile pyIsWs) = splitWs l := splitWs_dropWhile l
  rw [← h1, hdecomp]
  exact (splitWsAux_append_ws w hw (pyStripChars l) []).symm

theorem pyNormalize_idem (s : String) :
    pyNormalize (pyNormalize s) = pyNormalize s := by
  show String.mk (pyStripChars (joinSp (splitWs
      (String.mk (pyStripChars (joinSp (splitWs s.data)))).data))) = pyNormalize s
  have hdata : (String.mk (pyStripChars (joinSp (splitWs s.data)))).data
      = pyStripChars (joinSp (splitWs s.data)) := rfl
  rw [hdata, splitWs_strip (joinSp (splitWs s.data)),
    splitWs_joinSp (splitWs s.data) (splitWsAux_tokens s.data [] (by simp))]
  rfl

/-- C9: the text normalizer is total — any non-string value (None
included) yields the empty string without raising — and idempotent on
every string (the NFC step, modelled as the identity, is itself
idempotent and creates no new whitespace). -/
theorem claim9_normalize_total_idempotent :
    (∀ v : PyVal, (∀ s : String, v ≠ PyVal.str s) → _normalize_text v = "") ∧
    (∀ s : String,
      _normalize_text (PyVal.str (_normalize_text (PyVal.str s)))
        = _normalize_text (PyVal.str s)) := by
  constructor
  · intro v hv
    cases v with
    | str s => exact absurd rfl (hv s)
    | none => rfl
    | bool b => rfl
    | int n => rfl
    | float q => rfl
    | list xs => rfl
    | tuple xs => rfl
    | dict kvs => rfl
  · intro s
    simp only [_normalize_text]
    by_cases h1 : (s == "") = true
    · simp [h1]
    · by_cases h2 : (pyNormalize s == "") = true
      · simp [h1, h2]
        exact (eq_of_beq h2).symm
      · simp [h1, h2, pyNormalize_idem]

/-- Witness for C9: `None` normalizes to the empty string, and
normalization of a concrete messy string is idempotent. -/
theorem claim9_witness :
    (∀ s : String, PyVal.none ≠ PyVal.str s) ∧
      _normalize_text PyVal.none = "" ∧
      _normalize_text (PyVal.str (_normalize_text (PyVal.str "  a\t b ")))
        = _normalize_text (PyVal.str "  a\t b ") :=
  ⟨fun s h => PyVal.noConfusion h,
   claim9_normalize_total_idempotent.1 PyVal.none (fun s h => PyVal.noConfusion h),
   claim9_normalize_total_idempotent.2 "  a\t b "⟩

theorem collectRun_eq (blocks : List Block) (j : Nat) :
    collectRun blocks j =
      if h : j < blocks.length then
        let nb := blocks.get ⟨j, h⟩
        if nb.type == "title" then ⟨[], [], 0⟩
        else if nb.is_noise || _should_discard_toc nb then
          let r := collectRun blocks (j + 1)
          ⟨r.parts, r.ids, r.consumed + 1⟩
        else if contentType nb then
          let r := collectRun blocks (j + 1)
          ⟨pyStrip nb.text :: r.parts, nb.block_id :: r.ids, r.consumed + 1⟩
        else
          let r := collectRun blocks (j + 1)
          ⟨r.parts, r.ids, r.consumed + 1⟩
      else ⟨[], [], 0⟩ := by
  by_cases h : j < blocks.length
  · have harith : blocks.length - j = (blocks.length - (j + 1)) + 1 := by omega
    unfold collectRun
    rw [harith]
    simp only [collectRunF]
  · unfold collectRun
    have h0 : blocks.length - j = 0 := by omega
    rw [h0, dif_neg h]
    rfl

theorem nextStop_eq (blocks : List Block) (j : Nat) :
    nextStop blocks j =
      if h : j < blocks.length then
        if (blocks.get ⟨j, h⟩).type == "title" then j else nextStop blocks (j + 1)
      else blocks.length := by
  by_cases h : j < blocks.length
  · have harith : blocks.length - j = (blocks.length - (j + 1)) + 1 := by omega
    unfold nextStop
    rw [harith]
    simp only [nextStopF]
  · unfold nextStop
    have h0 : blocks.length - j = 0 := by omega
    rw [h0, dif_neg h]
    rfl

theorem chunkLoopF_congr (blocks : List Block) :
    ∀ (f1 f2 i : Nat), blocks.length - i ≤ f1 → blocks.length - i ≤ f2 →
      chunkLoopF f1 blocks i = chunkLoopF f2 blocks i := by
  intro f1
  induction f1 with
  | zero =>
      intro f2 i h1 h2
      cases f2 with
      | zero => rfl
      | succ f2 =>
          simp only [chunkLoopF]
          rw [dif_neg (by omega : ¬ i < blocks.length)]
  | succ f1 ih =>
      intro f2 i h1 h2
      by_cases hi : i < blocks.length
      · cases f2 with
        | zero => exact absurd h2 (by omega)
        | succ f2 =>
            simp only [chunkLoopF]
            rw [dif_pos hi, dif_pos hi]
            have e1 : chunkLoopF f1 blocks (i + 1) = chunkLoopF f2 blocks (i + 1) :=
              ih f2 (i + 1) (by omega) (by omega)
            have e2 : ∀ c, chunkLoopF f1 blocks (i + 1 + c)
                = chunkLoopF f2 blocks (i + 1 + c) :=
              fun c => ih f2 (i + 1 + c) (by omega) (by omega)
            simp only [e1, e2]
      · cases f2 with
        | zero =>
            simp only [chunkLoopF]
            rw [dif_neg hi]
        | succ f2 =>
            simp only [chunkLoopF]
            rw [dif_neg hi, dif_neg hi]

theorem chunkLoop_eq (blocks : List Block) (i : Nat) :
    chunkLoop blocks i =
      if h : i < blocks.length then
        let b := blocks.get ⟨i, h⟩
        if b.is_noise || _should_discard_toc b then chunkLoop blocks (i + 1)
        else if b.type == "title" then
          let titleText := pyStrip b.text
          if titleText.length < 4 ||
              (!containsL titleText.data [' '] && titleText.length < 20) then
            chunkLoop blocks (i + 1)
          else
            let r := collectRun blocks (i + 1)
            let rest := chunkLoop blocks (i + 1 + r.consumed)
            if !r.parts.isEmpty then
              { title := titleText
                content := String.intercalate "\n\n" r.parts
                page := b.page
                section_id := b.section_id
                section_title := b.section_title
                chunk_id := b.chunk_id
                block_ids := b.block_id :: r.ids } :: rest
            else rest
        else if contentType b then
          let r := collectRun blocks (i + 1)
          { title := ""
            content := String.intercalate "\n\n" (pyStrip b.text :: r.parts)
            page := b.page
            section_id := b.section_id
            section_title := b.section_title
            chunk_id := b.chunk_id
            block_ids := b.block_id :: r.ids } :: chunkLoop blocks (i + 1 + r.consumed)
        else chunkLoop blocks (i + 1)
      else [] := by
  by_cases h : i < blocks.length
  · have harith : blocks.length - i = (blocks.length - (i + 1)) + 1 := by omega
    have e2 : ∀ c, chunkLoopF (blocks.length - (i + 1)) blocks (i + 1 + c)
        = chunkLoop blocks (i + 1 + c) := fun c =>
      chunkLoopF_congr blocks _ _ _ (by omega) (by omega)
    unfold chunkLoop
    rw [harith]
    simp only [chunkLoopF]
    rw [dif_pos h, dif_pos h]
    have e1 : chunkLoopF (blocks.length - (i + 1)) blocks (i + 1)
        = chunkLoop blocks (i + 1) := rfl
    have e3 : ∀ c, chunkLoopF (blocks.length - (i + 1 + c)) blocks (i + 1 + c)
        = chunkLoop blocks (i + 1 + c) := fun c => rfl
    simp only [e2, e1, e3]
  · unfold chunkLoop
    have h0 : blocks.length - i = 0 := by omega
    rw [h0, dif_neg h]
    rfl

theorem collectRun_ids (blocks : List Block) :
    ∀ (n j : Nat), blocks.length - j ≤ n →
      ∀ id ∈ (collectRun blocks j).ids,
        ∃ b ∈ blocks, b.block_id = id ∧ b.is_noise = false ∧
          _should_discard_toc b = false := by
  intro n
  induction n with
  | zero =>
      intro j hn id hid
      rw [collectRun_eq, dif_neg (by omega : ¬ j < blocks.length)] at hid
      simp at hid
  | succ n ih =>
      intro j hn id hid
      rw [collectRun_eq] at hid
      by_cases hj : j < blocks.length
      · rw [dif_pos hj] at hid
        simp only at hid
        split at hid
        · simp at hid
        · split at hid
          · rename_i hnotitle hskip
            exact ih (j + 1) (by omega) id (by simpa using hid)
          · split at hid
            · rename_i hnotitle hsurv hcont
              rcases List.mem_cons.mp (by simpa using hid) with hEq | hTail
              · refine ⟨blocks.get ⟨j, hj⟩, List.get_mem _ _ _, hEq.symm, ?_, ?_⟩
                · have h2 : ((blocks.get ⟨j, hj⟩).is_noise ||
                      _should_discard_toc (blocks.get ⟨j, hj⟩)) = false := by
                    simpa using hsurv
                  exact (Bool.or_eq_false_iff.mp h2).1
                · have h2 : ((blocks.get ⟨j, hj⟩).is_noise ||
                      _should_discard_toc (blocks.get ⟨j, hj⟩)) = false := by
                    simpa using hsurv
                  exact (Bool.or_eq_false_iff.mp h2).2
              · exact ih (j + 1) (by omega) id hTail
            · exact ih (j + 1) (by omega) id (by simpa using hid)
      · rw [dif_neg hj] at hid
        simp at hid

theorem chunkLoop_ids (blocks : List Block) :
    ∀ (n i : Nat), blocks.length - i ≤ n →
      ∀ c ∈ chunkLoop blocks i, ∀ id ∈ c.block_ids,
        ∃ b ∈ blocks, b.block_id = id ∧ b.is_noise = false ∧
          _should_discard_toc b = false := by
  intro n
  induction n with
  | zero =>
      intro i hn c hc
      rw [chunkLoop_eq, dif_neg (by omega : ¬ i < blocks.length)] at hc
      simp at hc
  | succ n ih =>
      intro i hn c hc id hid
      rw [chunkLoop_eq] at hc
      by_cases hi : i < blocks.length
      · rw [dif_pos hi] at hc
        simp only at hc
        split at hc
        · exact ih (i + 1) (by omega) c hc id hid
        · rename_i hsurv
          have hsurv2 : ((blocks.get ⟨i, hi⟩).is_noise ||
              _should_discard_toc (blocks.get ⟨i, hi⟩)) = false := by
            simpa using hsurv
          split at hc
          · split at hc
            · exact ih (i + 1) (by omega) c hc id hid
            · split at hc
              · rcases List.mem_cons.mp hc with hc1 | hc2
                · subst hc1
                  rcases List.mem_cons.mp (by simpa using hid) with h1 | h2
                  · refine ⟨blocks.get ⟨i, hi⟩, List.get_mem _ _ _, h1.symm, ?_, ?_⟩
                    · exact (Bool.or_eq_false_iff.mp hsurv2).1
                    · exact (Bool.or_eq_false_iff.mp hsurv2).2
                  · exact collectRun_ids blocks blocks.length (i + 1) (by omega) id h2
                · exact ih (i + 1 + (collectRun blocks (i + 1)).consumed)
                    (by omega) c hc2 id hid
              · exact ih (i + 1 + (collectRun blocks (i + 1)).consumed)
                  (by omega) c hc id hid
          · split at hc
            · rcases List.mem_cons.mp hc with hc1 | hc2
              · subst hc1
                rcases List.mem_cons.mp (by simpa using hid) with h1 | h2
                · refine ⟨blocks.get ⟨i, hi⟩, List.get_mem _ _ _, h1.symm, ?_, ?_⟩
                  · exact (Bool.or_eq_false_iff.mp hsurv2).1
                  · exact (Bool.or_eq_false_iff.mp hsurv2).2
                · exact collectRun_ids blocks blocks.length (i + 1) (by omega) id h2
              · exact ih (i + 1 + (collectRun blocks (i + 1)).consumed)
                  (by omega) c hc2 id hid
            · exact ih (i + 1) (by omega) c hc id hid
      · rw [dif_neg hi] at hc
        simp at hc

/-- C10: every block id listed in `block_ids` of any chunk produced by
`get_embedding_chunks` refers to a block of the input that is not noise and
does not match the table-of-contents discard rule — no noise or
TOC-discarded block contributes its id (its text is collected only
together with its id) to any chunk. -/
theorem claim10_chunk_sources (result : ExtractResult) :
    ∀ c ∈ get_embedding_chunks result, ∀ id ∈ c.block_ids,
      ∃ b ∈ result.blocks, b.block_id = id ∧ b.is_noise = false ∧
        _should_discard_toc b = false := by
  intro c hc id hid
  exact chunkLoop_ids result.blocks result.blocks.length 0 (by omega) c hc id hid

/-- Witness for C10 on a one-paragraph extraction result. -/
theorem claim10_witness :
    ∃ b ∈ c10result.blocks, b.block_id = "block_0" ∧ b.is_noise = false ∧
      _should_discard_toc b = false :=
  claim10_chunk_sources c10result
    ⟨"", "Temiz bir paragraf metni.", 1, "s", "t", "c", ["block_0"]⟩
    (by decide) "block_0" (by decide)

theorem nextStop_le (blocks : List Block) :
    ∀ (n j : Nat), blocks.length - j ≤ n → nextStop blocks j ≤ blocks.length := by
  intro n
  induction n with
  | zero =>
      intro j hn
      rw [nextStop_eq, dif_neg (by omega : ¬ j < blocks.length)]
  | succ n ih =>
      intro j hn
      rw [nextStop_eq]
      by_cases hj : j < blocks.length
      · rw [dif_pos hj]
        split
        · omega
        · exact ih (j + 1) (by omega)
      · rw [dif_neg hj]

theorem nextStop_ge (blocks : List Block) :
    ∀ (n j : Nat), blocks.length - j ≤ n → j ≤ blocks.length →
      j ≤ nextStop blocks j := by
  intro n
  induction n with
  | zero =>
      intro j hn hle
      rw [nextStop_eq, dif_neg (by omega : ¬ j < blocks.length)]
      omega
  | succ n ih =>
      intro j hn hle
      rw [nextStop_eq]
      by_cases hj : j < blocks.length
      · rw [dif_pos hj]
        split
        · omega
        · have := ih (j + 1) (by omega) (by omega)
          omega
      · rw [dif_neg hj]
        omega

theorem nextStop_step (blocks : List Block) (j : Nat) (hj : j < blocks.length)
    (hnt : (blocks.get ⟨j, hj⟩).type ≠ "title") :
    nextStop blocks j = nextStop blocks (j + 1) := by
  rw [nextStop_eq, dif_pos hj, if_neg (by simpa using hnt)]

theorem nextStop_no_title (blocks : List Block) :
    ∀ (n j : Nat), blocks.length - j ≤ n →
      ∀ (l : Nat) (hl : l < blocks.length), j ≤ l → l < nextStop blocks j →
        (blocks.get ⟨l, hl⟩).type ≠ "title" := by
  intro n
  induction n with
  | zero =>
      intro j hn l hl h1 h2
      omega
  | succ n ih =>
      intro j hn l hl h1 h2
      by_cases hj : j < blocks.length
      · by_cases ht : ((blocks.get ⟨j, hj⟩).type == "title") = true
        · rw [nextStop_eq, dif_pos hj, if_pos ht] at h2
          omega
        · have hstep : nextStop blocks j = nextStop blocks (j + 1) :=
            nextStop_step blocks j hj (by simpa using ht)
          by_cases hlj : l = j
          · subst hlj
            simpa using ht
          · exact ih (j + 1) (by omega) l hl (by omega) (by rw [← hstep]; exact h2)
      · rw [nextStop_eq, dif_neg hj] at h2
        omega

theorem collectRun_stop (blocks : List Block) :
    ∀ (n j : Nat), blocks.length - j ≤ n → j ≤ blocks.length →
      j + (collectRun blocks j).consumed = nextStop blocks j := by
  intro n
  induction n with
  | zero =>
      intro j hn hle
      rw [collectRun_eq, dif_neg (by omega : ¬ j < blocks.length),
        nextStop_eq, dif_neg (by omega : ¬ j < blocks.length)]
      dsimp only
      omega
  | succ n ih =>
      intro j hn hle
      by_cases hj : j < blocks.length
      · rw [collectRun_eq, dif_pos hj, nextStop_eq, dif_pos hj]
        dsimp only
        by_cases ht : ((blocks.get ⟨j, hj⟩).type == "title") = true
        · rw [if_pos ht, if_pos ht]
          dsimp only
          omega
        · rw [if_neg ht, if_neg ht]
          have hrec := ih (j + 1) (by omega) (by omega)
          split
          · dsimp only
            omega
          · split
            · dsimp only
              omega
            · dsimp only
              omega
      · rw [collectRun_eq, dif_neg hj, nextStop_eq, dif_neg hj]
        dsimp only
        omega

theorem collectRun_parts_empty (blocks : List Block) :
    ∀ (n j : Nat), blocks.length - j ≤ n →
      (∀ (l : Nat) (hl : l < blocks.length), j ≤ l → l < nextStop blocks j →
        (contentType (blocks.get ⟨l, hl⟩) &&
          !((blocks.get ⟨l, hl⟩).is_noise ||
            _should_discard_toc (blocks.get ⟨l, hl⟩))) = false) →
      (collectRun blocks j).parts = [] := by
  intro n
  induction n with
  | zero =>
      intro j hn _
      rw [collectRun_eq, dif_neg (by omega : ¬ j < blocks.length)]
  | succ n ih =>
      intro j hn hP
      by_cases hj : j < blocks.length
      · rw [collectRun_eq, dif_pos hj]
        simp only
        by_cases ht : ((blocks.get ⟨j, hj⟩).type == "title") = true
        · rw [if_pos ht]
        · rw [if_neg ht]
          have hnt : (blocks.get ⟨j, hj⟩).type ≠ "title" := by simpa using ht
          have hstep := nextStop_step blocks j hj hnt
          have hP2 : ∀ (l : Nat) (hl : l < blocks.length), j + 1 ≤ l →
              l < nextStop blocks (j + 1) →
              (contentType (blocks.get ⟨l, hl⟩) &&
                !((blocks.get ⟨l, hl⟩).is_noise ||
                  _should_discard_toc (blocks.get ⟨l, hl⟩))) = false := by
            intro l hl h1 h2
            exact hP l hl (by omega) (by rw [hstep]; exact h2)
          by_cases hskip : ((blocks.get ⟨j, hj⟩).is_noise ||
              _should_discard_toc (blocks.get ⟨j, hj⟩)) = true
          · rw [if_pos hskip]
            exact ih (j + 1) (by omega) hP2
          · rw [if_neg hskip]
            by_cases hcont : contentType (blocks.get ⟨j, hj⟩) = true
            · exfalso
              have hjlt : j < nextStop blocks j := by
                have := nextStop_ge blocks blocks.length (j + 1) (by omega) (by omega)
                omega
              have := hP j hj (Nat.le_refl j) hjlt
              rw [hcont] at this
              simp only [Bool.true_and, Bool.not_eq_false'] at this
              exact absurd this hskip
            · rw [if_neg hcont]
              exact ih (j + 1) (by omega) hP2
      · rw [collectRun_eq, dif_neg hj]

theorem chunkLoop_walk (blocks : List Block) (i : Nat)
    (hwin : ∀ (l : Nat) (hl : l < blocks.length), i < l → l < nextStop blocks (i + 1) →
      (contentType (blocks.get ⟨l, hl⟩) &&
        !((blocks.get ⟨l, hl⟩).is_noise ||
          _should_discard_toc (blocks.get ⟨l, hl⟩))) = false) :
    ∀ (n k : Nat), nextStop blocks (i + 1) - k ≤ n → i < k →
      k ≤ nextStop blocks (i + 1) →
      chunkLoop blocks k = chunkLoop blocks (nextStop blocks (i + 1)) := by
  intro n
  induction n with
  | zero =>
      intro k h1 h2 h3
      have hk : k = nextStop blocks (i + 1) := by omega
      rw [hk]
  | succ n ih =>
      intro k h1 h2 h3
      by_cases hk : k = nextStop blocks (i + 1)
      · rw [hk]
      · have hklt : k < nextStop blocks (i + 1) := by omega
        have hkl : k < blocks.length := by
          have := nextStop_le blocks blocks.length (i + 1) (by omega)
          omega
        have hnt : (blocks.get ⟨k, hkl⟩).type ≠ "title" :=
          nextStop_no_title blocks blocks.length (i + 1) (by omega) k hkl
            (by omega) hklt
        rw [chunkLoop_eq, dif_pos hkl]
        dsimp only
        by_cases hskip : ((blocks.get ⟨k, hkl⟩).is_noise ||
            _should_discard_toc (blocks.get ⟨k, hkl⟩)) = true
        · rw [if_pos hskip]
          exact ih (k + 1) (by omega) (by omega) (by omega)
        · rw [if_neg hskip, if_neg (by simpa using hnt :
            ¬((blocks.get ⟨k, hkl⟩).type == "title") = true)]
          by_cases hcont : contentType (blocks.get ⟨k, hkl⟩) = true
          · exfalso
            have := hwin k hkl h2 hklt
            rw [hcont] at this
            simp only [Bool.true_and, Bool.not_eq_false'] at this
            exact absurd this hskip
          · rw [if_neg hcont]
            exact ih (k + 1) (by omega) (by omega) (by omega)

/-- C7: a `title` block whose window — up to the next title or the end of
the list — holds no surviving content block (every block there is noise,
TOC-discarded, or of a non-content type) contributes no chunk: the
assembler's output from the title equals its output resumed at the next
title boundary. -/
theorem claim7_title_without_content (blocks : List Block) (i : Nat)
    (hi : i < blocks.length) (ht : (blocks.get ⟨i, hi⟩).type = "title")
    (hwin : ∀ (l : Nat) (hl : l < blocks.length), i < l →
      l < nextStop blocks (i + 1) →
      (contentType (blocks.get ⟨l, hl⟩) &&
        !((blocks.get ⟨l, hl⟩).is_noise ||
          _should_discard_toc (blocks.get ⟨l, hl⟩))) = false) :
    chunkLoop blocks i = chunkLoop blocks (nextStop blocks (i + 1)) := by
  have hwalk := chunkLoop_walk blocks i hwin
  have hge : i + 1 ≤ nextStop blocks (i + 1) :=
    nextStop_ge blocks blocks.length (i + 1) (by omega) (by omega)
  have hnsle : nextStop blocks (i + 1) ≤ blocks.length :=
    nextStop_le blocks blocks.length (i + 1) (by omega)
  rw [chunkLoop_eq, dif_pos hi]
  dsimp only
  by_cases hskip : ((blocks.get ⟨i, hi⟩).is_noise ||
      _should_discard_toc (blocks.get ⟨i, hi⟩)) = true
  · rw [if_pos hskip]
    exact hwalk blocks.length (i + 1) (by omega) (by omega) hge
  · rw [if_neg hskip, if_pos (beq_iff_eq.mpr ht)]
    by_cases hshort : (decide ((pyStrip (blocks.get ⟨i, hi⟩).text).length < 4) ||
        (!containsL (pyStrip (blocks.get ⟨i, hi⟩).text).data [' '] &&
         decide ((pyStrip (blocks.get ⟨i, hi⟩).text).length < 20))) = true
    · rw [if_pos hshort]
      exact hwalk blocks.length (i + 1) (by omega) (by omega) hge
    · rw [if_neg hshort]
      have hP2 : ∀ (l : Nat) (hl : l < blocks.length), i + 1 ≤ l →
          l < nextStop blocks (i + 1) →
          (contentType (blocks.get ⟨l, hl⟩) &&
            !((blocks.get ⟨l, hl⟩).is_noise ||
              _should_discard_toc (blocks.get ⟨l, hl⟩))) = false := by
        intro l hl h1 h2
        exact hwin l hl (by omega) h2
      have hparts : (collectRun blocks (i + 1)).parts = [] :=
        collectRun_parts_empty blocks blocks.length (i + 1) (by omega) hP2
      have hstop : i + 1 + (collectRun blocks (i + 1)).consumed
          = nextStop blocks (i + 1) :=
        collectRun_stop blocks blocks.length (i + 1) (by omega) (by omega)
      rw [hparts]
      simp only [List.isEmpty_nil, Bool.not_true, Bool.false_eq_true, if_false]
      rw [hstop]

/-- Witness for C7: a surviving title followed only by a noise paragraph
produces the same (empty) chunk list as resuming at the end of the list. -/
theorem claim7_witness :
    (c7blocks.get ⟨0, by decide⟩).type = "title" ∧
      chunkLoop c7blocks 0 = chunkLoop c7blocks (nextStop c7blocks 1) :=
  ⟨by decide,
   claim7_title_without_content c7blocks 0 (by decide) (by decide)
     (fun l hl h1 h2 => by
        have hns : nextStop c7blocks 1 = 2 := by decide
        rw [hns] at h2
        have hl1 : l = 1 := by omega
        subst hl1
        exact (by decide : (contentType (c7blocks.get ⟨1, by decide⟩) &&
          !((c7blocks.get ⟨1, by decide⟩).is_noise ||
            _should_discard_toc (c7blocks.get ⟨1, by decide⟩))) = false))⟩
